import Mathlib

/-!
Verification of the diario-sjc-crawler pipeline against its specification.

This file gives a shallow embedding, in Lean 4, of the data model and the
operations of the crawler (metadata parser, structure parser, concurrent
HTTP layer, aggregator, parquet storage writer), translated from the
Python sources under `src/diario_crawler/`, and proves or refutes the
frozen claims about them.

Conventions of the embedding:
* Python dicts used as insertion-ordered maps become association lists
  (`List (String × α)`) with Python's update rule: assigning to an
  existing key replaces the value in place, a new key is appended.
* Python JSON values become the inductive `Json` below; Python
  truthiness (`if not data: ...`) becomes `Json.truthy`.
* `asyncio` tasks become explicit outcome values: a task either returns
  a value or raises, and `asyncio.gather(..., return_exceptions=True)`
  becomes a list of such outcomes in task-creation order.
* Fallible conversions (`int(...)`) return `Except Unit _`; a raised
  exception that the Python code catches becomes the `.error` branch.
-/

set_option maxRecDepth 4000

/-- JSON values as the Python `json` module produces them (numbers are
restricted to integers: the crawler only consumes integral fields). -/
inductive Json where
  | null : Json
  | bool (b : Bool) : Json
  | num (n : Int) : Json
  | str (s : String) : Json
  | arr (xs : List Json) : Json
  | obj (fields : List (String × Json)) : Json

namespace Json

/-- Python truthiness of a JSON value: `None`, `False`, `0`, `""`, `[]`
and `\x7b\x7d` are falsy, everything else is truthy. -/
def truthy : Json → Bool
  | .null => false
  | .bool b => b
  | .num n => n != 0
  | .str s => s != ""
  | .arr xs => !xs.isEmpty
  | .obj fs => !fs.isEmpty

/-- `d.get(k)` on a JSON object: the value under the first binding of
`k`, if any.  On non-objects Python would raise; the crawler only calls
`.get` on values it has checked, and the parser wraps per-item accesses
in `try/except`, so `none` (leading to a skip) is the faithful result. -/
def get : Json → String → Option Json
  | .obj fs, k => (fs.find? (fun p => p.1 == k)).map (·.2)
  | _, _ => none

/-- `d.get(k, default)`. -/
def getD (j : Json) (k : String) (dflt : Json) : Json :=
  (j.get k).getD dflt

/-- Whether `item.get(k)` can be evaluated at all (`item` is a dict);
on anything else the attribute access raises and the surrounding
`try/except` skips the item. -/
def isObj : Json → Bool
  | .obj _ => true
  | _ => false

end Json

mutual

/-- Python `repr` of a JSON value (used by `str` on containers).  String
escaping inside reprs is approximated (no claim inspects it). -/
def pyRepr : Json → String
  | .null => "None"
  | .bool true => "True"
  | .bool false => "False"
  | .num n => toString n
  | .str s => "\x27" ++ s ++ "\x27"
  | .arr xs => "[" ++ pyReprList xs ++ "]"
  | .obj fs => "\x7b" ++ pyReprFields fs ++ "\x7d"

/-- Comma-separated reprs of list elements. -/
def pyReprList : List Json → String
  | [] => ""
  | [x] => pyRepr x
  | x :: xs => pyRepr x ++ ", " ++ pyReprList xs

/-- Comma-separated reprs of object fields. -/
def pyReprFields : List (String × Json) → String
  | [] => ""
  | [(k, v)] => "\x27" ++ k ++ "\x27: " ++ pyRepr v
  | (k, v) :: fs => "\x27" ++ k ++ "\x27: " ++ pyRepr v ++ ", " ++ pyReprFields fs

end

/-- Python `str(x)` of a JSON value (`str(None) = "None"`, `str(7) = "7"`,
`str("a") = "a"`, `str(True) = "True"`). -/
def pyStr : Json → String
  | .str s => s
  | j => pyRepr j

/-- Python `str(x)` applied to an `Option` field that may hold `None`. -/
def pyStrOpt : Option Json → String
  | none => "None"
  | some j => pyStr j

/-- Python `str.lower()` (ASCII case folding; the crawler compares
against ASCII literals only). -/
def pyLower (s : String) : String := ⟨s.data.map Char.toLower⟩

/-- ASCII whitespace recognised by Python `str.strip()` (the subset
that can occur in the crawler's inputs). -/
def isSpaceB (c : Char) : Bool := c == ' ' || c == '\t' || c == '\n' || c == '\r'

/-- Python `str.strip()`. -/
def pyTrim (s : String) : String :=
  ⟨((s.data.dropWhile isSpaceB).reverse.dropWhile isSpaceB).reverse⟩

/-- Is `c` an ASCII digit. -/
def isDigitChar (c : Char) : Bool := ("0123456789".toList).contains c

/-- Parse a non-empty all-digit string as a natural number. -/
def digitsToNat (cs : List Char) : Nat :=
  cs.foldl (fun acc c => acc * 10 + (c.toNat - 48)) 0

/-- Python `int(x)`.  Succeeds on ints and bools, and on strings that
are (possibly sign-prefixed, whitespace-trimmed) decimal numerals;
raises — modelled by `.error` — on anything else (`None`, floats are
absent from our `Json`, lists, dicts, non-numeric strings). -/
def pyInt : Json → Except Unit Int
  | .num n => .ok n
  | .bool b => .ok (if b then 1 else 0)
  | .str s =>
      let t := pyTrim s
      let (sign, body) :=
        match t.toList with
        | '-' :: rest => ((-1 : Int), rest)
        | '+' :: rest => ((1 : Int), rest)
        | cs => ((1 : Int), cs)
      if body.isEmpty || !body.all isDigitChar then .error ()
      else .ok (sign * (digitsToNat body : Int))
  | _ => .error ()

/-- `int(x)` where a missing field defaults to the given value:
`int(item.get(k, dflt))`. -/
def pyIntD (v : Option Json) (dflt : Int) : Except Unit Int :=
  match v with
  | none => .ok dflt
  | some j => pyInt j

/-! ## Data model (`models/gazette.py`, `models/article.py`, `models/content.py`) -/

/-- `GazetteMetadata` from `models/gazette.py`.  `publication_date`
keeps the raw JSON value the parser stored (Python dataclasses do not
coerce); everywhere the storage layer needs the string form it applies
`str(...)`, i.e. `pyStr`. -/
structure GazetteMetadata where
  edition_id : String
  publication_date : Json
  edition_number : Int
  supplement : Bool
  edition_type_id : Int
  edition_type_name : String
  pdf_url : String

/-- `ContentType` from `models/content.py`. -/
inductive ContentType where
  | html
  | pdf
  | text
deriving DecidableEq, Repr

/-- `ContentType.value`. -/
def ContentType.value : ContentType → String
  | .html => "html"
  | .pdf => "pdf"
  | .text => "text"

/-- `raw_content: str | bytes` — textual or binary payload (bytes are
modelled as their numeric values). -/
inductive RawContent where
  | text (s : String)
  | bytes (bs : List Nat)
deriving DecidableEq, Repr

/-- `ArticleContent` from `models/article.py`. -/
structure ArticleContent where
  raw_content : RawContent
  content_type : ContentType
deriving DecidableEq, Repr

/-- `ArticleMetadata` from `models/article.py`.  `identifier` and
`protocol` are `Option String` because the structure parser passes
`link.attributes.get(...)`, which may be `None`. -/
structure ArticleMetadata where
  article_id : String
  edition_id : String
  hierarchy_path : List String
  title : String
  identifier : Option String
  protocol : Option String := none
deriving DecidableEq, Repr

/-- `ArticleMetadata.depth` — length of the hierarchy path. -/
def ArticleMetadata.depth (a : ArticleMetadata) : Nat :=
  a.hierarchy_path.length

/-- `Article` from `models/article.py`: one record paired with content. -/
structure Article where
  metadata : ArticleMetadata
  content : ArticleContent
deriving DecidableEq, Repr

/-- `Article.article_id` property. -/
def Article.article_id (a : Article) : String := a.metadata.article_id

/-- `Article.depth` property. -/
def Article.depth (a : Article) : Nat := a.metadata.depth

/-- `GazetteEdition` from `models/gazette.py`. -/
structure GazetteEdition where
  metadata : GazetteMetadata
  articles : List Article

/-- `GazetteEdition.edition_id` property. -/
def GazetteEdition.edition_id (e : GazetteEdition) : String := e.metadata.edition_id

/-! ## Metadata parser (`parsers/metadata.py`) -/

namespace MetadataParser

/-- The supplement-normalization block of `MetadataParser.parse`
(`parsers/metadata.py` lines 48–58): `item.get("suplemento")` may be
absent/None, bool, str or int; anything else collapses to `False`.
The `isinstance(x, bool)` test precedes the `isinstance(x, int)` test
in the source, mirrored by the match order here. -/
def normalize_supplement : Option Json → Bool
  | none => false
  | some .null => false
  | some (.bool b) => b
  | some (.str s) => pyLower s == "true" || pyLower s == "1" || pyLower s == "yes"
  | some (.num n) => n != 0
  | some _ => false

/-- One iteration of the item loop of `MetadataParser.parse`
(lines 43–73): builds a `GazetteMetadata` from a JSON item, or skips
the item (`.error`) when a conversion raises (`int(...)` failures, or
`.get` on a non-dict item). -/
def parseItem (publication_date : Json) (item : Json) : Except Unit GazetteMetadata := do
  if !item.isObj then throw ()
  let edition_id := pyStrOpt (item.get "id")
  let supplement := normalize_supplement (item.get "suplemento")
  let edition_number ← pyIntD (item.get "numero") 0
  let edition_type_id ← pyIntD (item.get "tipo_edicao_id") 0
  pure
    { edition_id := edition_id
      publication_date := publication_date
      edition_number := edition_number
      supplement := supplement
      edition_type_id := edition_type_id
      edition_type_name := pyStr (item.getD "tipo_edicao_nome" (.str ""))
      pdf_url := "https://diariodomunicipio.sjc.sp.gov.br/apifront/portal/edicoes/pdf_diario/"
        ++ edition_id ++ "/" }

/-- `MetadataParser.parse` (`parsers/metadata.py`).  The argument is
the result of `response.json()`: `.error` when the body is malformed
JSON (the caught `json.JSONDecodeError`).  Returns `[]` on malformed
JSON, on falsy payloads, on a truthy `erro` field and on a
falsy/missing `itens` list; otherwise converts each item, skipping the
ones whose conversion raises. -/
def parse (body : Except Unit Json) : List GazetteMetadata :=
  match body with
  | .error _ => []
  | .ok data =>
    if !data.truthy || (data.getD "erro" .null).truthy || !(data.getD "itens" .null).truthy
    then []
    else
      let publication_date := data.getD "data" (.str "unknown")
      let items := match data.getD "itens" .null with
        | .arr xs => xs
        | _ => []
      items.foldl (fun acc item =>
        match parseItem publication_date item with
        | .ok m => acc ++ [m]
        | .error _ => acc) []

end MetadataParser

example :
    MetadataParser.parse (.ok (.obj [("data", .str "2024-01-03"),
      ("itens", .arr [.obj [("id", .num 42), ("numero", .num 7),
        ("suplemento", .str "true"), ("tipo_edicao_id", .num 1),
        ("tipo_edicao_nome", .str "Normal")]])])) =
    [{ edition_id := "42", publication_date := .str "2024-01-03",
       edition_number := 7, supplement := true, edition_type_id := 1,
       edition_type_name := "Normal",
       pdf_url := "https://diariodomunicipio.sjc.sp.gov.br/apifront/portal/edicoes/pdf_diario/42/" }] := by
  rfl

/-- C8: for every HTTP response whose body is malformed JSON
(`response.json()` raising, i.e. the `.error` argument), or whose JSON
carries a truthy `erro` field, or whose `itens` list is falsy (empty or
missing), `MetadataParser.parse` returns the empty list.  It does not
raise: `parse` is a total function into `List GazetteMetadata`. -/
theorem MetadataParser.parse_empty_on_bad_payload :
    MetadataParser.parse (.error ()) = [] ∧
    (∀ d : Json, (d.getD "erro" Json.null).truthy = true →
      MetadataParser.parse (.ok d) = []) ∧
    (∀ d : Json, (d.getD "itens" Json.null).truthy = false →
      MetadataParser.parse (.ok d) = []) := by
  refine ⟨rfl, ?_, ?_⟩
  · intro d h
    simp [MetadataParser.parse, h]
  · intro d h
    simp [MetadataParser.parse, h]

/-- Witness for C8: a payload with an explicit error field, and a
payload whose item list is empty, both parse to the empty list. -/
theorem MetadataParser.parse_empty_on_bad_payload_witness :
    MetadataParser.parse (.ok (.obj [("erro", .str "falha"),
      ("itens", .arr [.obj [("id", .num 1)]])])) = [] ∧
    MetadataParser.parse (.ok (.obj [("data", .str "2024-01-03"),
      ("itens", .arr [])])) = [] :=
  ⟨MetadataParser.parse_empty_on_bad_payload.2.1 _ (by rfl),
   MetadataParser.parse_empty_on_bad_payload.2.2 _ (by rfl)⟩

/-- C9: the metadata parser normalizes the supplement field so that
string `"1"`, integer `1` and boolean `true` yield `true` (truthy
strings matched case-insensitively: lower-casing the string does not
change the outcome, and `"True"`, `"YES"` are truthy), while string
`"0"`, integer `0`, boolean `false` and an absent field yield `false`;
an end-to-end check on `parse` confirms the normalized flag lands in
the emitted `GazetteMetadata`. -/
theorem MetadataParser.normalize_supplement_spec :
    MetadataParser.normalize_supplement (some (.str "1")) = true ∧
    MetadataParser.normalize_supplement (some (.num 1)) = true ∧
    MetadataParser.normalize_supplement (some (.bool true)) = true ∧
    MetadataParser.normalize_supplement (some (.str "0")) = false ∧
    MetadataParser.normalize_supplement (some (.num 0)) = false ∧
    MetadataParser.normalize_supplement (some (.bool false)) = false ∧
    MetadataParser.normalize_supplement none = false ∧
    MetadataParser.normalize_supplement (some (.str "True")) = true ∧
    MetadataParser.normalize_supplement (some (.str "YES")) = true ∧
    (∀ s : String, MetadataParser.normalize_supplement (some (.str s)) = true ↔
      (pyLower s = "true" ∨ pyLower s = "1" ∨ pyLower s = "yes")) ∧
    (MetadataParser.parse (.ok (.obj [("data", .str "2024-01-03"),
      ("itens", .arr [.obj [("id", .num 42), ("suplemento", .str "1")]])]))).map
        (fun m => m.supplement) = [true] ∧
    (MetadataParser.parse (.ok (.obj [("data", .str "2024-01-03"),
      ("itens", .arr [.obj [("id", .num 42)]])]))).map
        (fun m => m.supplement) = [false] := by
  refine ⟨rfl, rfl, rfl, rfl, rfl, rfl, rfl, rfl, rfl, ?_, rfl, rfl⟩
  intro s
  simp [MetadataParser.normalize_supplement]
  tauto

/-! ## Structure parser deduplication (`parsers/structure.py`, lines 74–108)

Python's insertion-ordered `dict[str, ArticleMetadata]` is modelled as
an association list with unique keys: assigning to a present key
replaces the value in place, a new key is appended at the end. -/

namespace HtmlStructureParser

/-- `unique[key] = article` when `key` is already present: replace the
value at the (unique) binding of `key`, keeping its position. -/
def setAssoc : List (String × ArticleMetadata) → String → ArticleMetadata →
    List (String × ArticleMetadata)
  | [], _, _ => []
  | (k0, v0) :: rest, k, v =>
      if k0 == k then (k, v) :: rest else (k0, v0) :: setAssoc rest k v

/-- One iteration of the loop in `deduplicate_keep_deepest`
(`structure.py` lines 91–99): keep the stored record unless the new one
is strictly deeper. -/
def dedupStep (m : List (String × ArticleMetadata)) (a : ArticleMetadata) :
    List (String × ArticleMetadata) :=
  match m.find? (fun p => p.1 == a.article_id) with
  | some p => if a.depth > p.2.depth then setAssoc m a.article_id a else m
  | none => m ++ [(a.article_id, a)]

/-- `HtmlStructureParser.deduplicate_keep_deepest` (`structure.py`
lines 74–108): single pass over the input, keyed by `article_id`,
replace-if-strictly-deeper; the result is `list(unique.values())`. -/
def deduplicate_keep_deepest (articles : List ArticleMetadata) : List ArticleMetadata :=
  (articles.foldl dedupStep []).map Prod.snd

/-- Claim-side quantity: the input records bearing a given article
identifier. -/
def groupOf (records : List ArticleMetadata) (k : String) : List ArticleMetadata :=
  records.filter (fun a => a.article_id == k)

/-- Claim-side quantity: the maximum hierarchy-path length among the
records bearing identifier `k` (0 for an absent identifier). -/
def maxDepthOf (records : List ArticleMetadata) (k : String) : Nat :=
  ((groupOf records k).map ArticleMetadata.depth).foldl Nat.max 0

/-- Claim-side quantity: the first-seen record attaining the maximum
depth within its identifier group. -/
def firstDeepest (records : List ArticleMetadata) (k : String) : Option ArticleMetadata :=
  (groupOf records k).find? (fun a => a.depth == maxDepthOf records k)

lemma foldl_max_init_le (l : List Nat) (n : Nat) : n ≤ l.foldl Nat.max n := by
  induction l generalizing n with
  | nil => exact Nat.le_refl n
  | cons x xs ih => exact le_trans (Nat.le_max_left n x) (ih (Nat.max n x))

lemma le_foldl_max_of_mem {x : Nat} {l : List Nat} (n : Nat) (hx : x ∈ l) :
    x ≤ l.foldl Nat.max n := by
  induction l generalizing n with
  | nil => cases hx
  | cons y ys ih =>
    rcases List.mem_cons.mp hx with h | h
    · subst h
      exact le_trans (Nat.le_max_right n x) (foldl_max_init_le ys _)
    · exact ih _ h

lemma foldl_max_mem (l : List Nat) (n : Nat) :
    l.foldl Nat.max n = n ∨ l.foldl Nat.max n ∈ l := by
  induction l generalizing n with
  | nil => exact Or.inl rfl
  | cons x xs ih =>
    rcases ih (Nat.max n x) with h | h
    · rcases Nat.le_total x n with hle | hle
      · refine Or.inl ?_
        rw [List.foldl_cons, h]
        exact max_eq_left hle
      · refine Or.inr ?_
        rw [List.foldl_cons, h]
        have hx : Nat.max n x = x := max_eq_right hle
        rw [hx]
        exact List.mem_cons_self x xs
    · exact Or.inr (List.mem_cons_of_mem x h)

/-- A non-empty identifier group contains a first record attaining the
group's maximum depth. -/
lemma exists_firstDeepest (records : List ArticleMetadata) (k : String)
    (h : groupOf records k ≠ []) :
    ∃ r, firstDeepest records k = some r ∧ r.depth = maxDepthOf records k ∧
      r ∈ groupOf records k := by
  have hatt : ∃ a ∈ groupOf records k, a.depth = maxDepthOf records k := by
    rcases foldl_max_mem ((groupOf records k).map ArticleMetadata.depth) 0 with h0 | hmem
    · rcases List.exists_mem_of_ne_nil _ h with ⟨a, ha⟩
      refine ⟨a, ha, Nat.le_antisymm ?_ ?_⟩
      · exact le_foldl_max_of_mem 0 (List.mem_map_of_mem _ ha)
      · rw [maxDepthOf, h0]; exact Nat.zero_le _
    · rcases List.mem_map.mp hmem with ⟨a, ha, hd⟩
      exact ⟨a, ha, hd⟩
  rcases hatt with ⟨a, ha, hd⟩
  have hsome : ((groupOf records k).find?
      (fun x => x.depth == maxDepthOf records k)).isSome := by
    rw [List.find?_isSome]
    exact ⟨a, ha, by simpa using hd⟩
  rcases Option.isSome_iff_exists.mp hsome with ⟨r, hr⟩
  refine ⟨r, hr, ?_, List.mem_of_find?_eq_some hr⟩
  simpa using List.find?_some hr

lemma setAssoc_map_fst (m : List (String × ArticleMetadata)) (k : String)
    (v : ArticleMetadata) : (setAssoc m k v).map Prod.fst = m.map Prod.fst := by
  induction m with
  | nil => rfl
  | cons p rest ih =>
    obtain ⟨k0, v0⟩ := p
    by_cases h : k0 = k
    · simp [setAssoc, h]
    · simp [setAssoc, h, ih]

lemma find?_setAssoc_ne (m : List (String × ArticleMetadata)) (k : String)
    (v : ArticleMetadata) (k' : String) (h : k' ≠ k) :
    (setAssoc m k v).find? (fun p => p.1 == k') = m.find? (fun p => p.1 == k') := by
  induction m with
  | nil => rfl
  | cons p rest ih =>
    obtain ⟨k0, v0⟩ := p
    by_cases h0 : k0 = k
    · subst h0
      have hs : setAssoc ((k0, v0) :: rest) k0 v = (k0, v) :: rest := by
        simp [setAssoc]
      rw [hs, List.find?_cons_of_neg _ (by simp [Ne.symm h]),
        List.find?_cons_of_neg _ (by simp [Ne.symm h])]
    · have hs : setAssoc ((k0, v0) :: rest) k v = (k0, v0) :: setAssoc rest k v := by
        simp [setAssoc, h0]
      rw [hs]
      by_cases h1 : k0 = k'
      · subst h1
        rw [List.find?_cons_of_pos _ (by simp), List.find?_cons_of_pos _ (by simp)]
      · rw [List.find?_cons_of_neg _ (by simp [h1]),
          List.find?_cons_of_neg _ (by simp [h1]), ih]

lemma find?_setAssoc_self (m : List (String × ArticleMetadata)) (k : String)
    (v : ArticleMetadata) (h : (m.find? (fun p => p.1 == k)).isSome) :
    (setAssoc m k v).find? (fun p => p.1 == k) = some (k, v) := by
  induction m with
  | nil => simp at h
  | cons p rest ih =>
    obtain ⟨k0, v0⟩ := p
    by_cases h0 : k0 = k
    · subst h0
      have hs : setAssoc ((k0, v0) :: rest) k0 v = (k0, v) :: rest := by
        simp [setAssoc]
      rw [hs, List.find?_cons_of_pos _ (by simp)]
    · have hs : setAssoc ((k0, v0) :: rest) k v = (k0, v0) :: setAssoc rest k v := by
        simp [setAssoc, h0]
      rw [hs, List.find?_cons_of_neg _ (by simp [h0])]
      rw [List.find?_cons_of_neg _ (by simp [h0])] at h
      exact ih h

lemma mem_setAssoc {m : List (String × ArticleMetadata)} {k : String}
    {v : ArticleMetadata} {p : String × ArticleMetadata}
    (hp : p ∈ setAssoc m k v) : p ∈ m ∨ p = (k, v) := by
  induction m with
  | nil => simp [setAssoc] at hp
  | cons q rest ih =>
    obtain ⟨k0, v0⟩ := q
    by_cases h0 : k0 = k
    · rw [show setAssoc ((k0, v0) :: rest) k v = (k, v) :: rest by simp [setAssoc, h0]]
        at hp
      rcases List.mem_cons.mp hp with h | h
      · exact Or.inr h
      · exact Or.inl (List.mem_cons_of_mem _ h)
    · rw [show setAssoc ((k0, v0) :: rest) k v = (k0, v0) :: setAssoc rest k v by
        simp [setAssoc, h0]] at hp
      rcases List.mem_cons.mp hp with h | h
      · exact Or.inl (h ▸ List.mem_cons_self _ _)
      · rcases ih h with h2 | h2
        · exact Or.inl (List.mem_cons_of_mem _ h2)
        · exact Or.inr h2

lemma find?_append_or {α : Type} (p : α → Bool) (l1 l2 : List α) :
    (l1 ++ l2).find? p = ((l1.find? p).orElse fun _ => l2.find? p) := by
  induction l1 with
  | nil => rfl
  | cons x xs ih =>
    by_cases hx : p x
    · rw [List.cons_append, List.find?_cons_of_pos _ hx, List.find?_cons_of_pos _ hx]
      rfl
    · rw [List.cons_append, List.find?_cons_of_neg _ hx, List.find?_cons_of_neg _ hx,
        ih]

lemma groupOf_append (rs : List ArticleMetadata) (a : ArticleMetadata) (k : String) :
    groupOf (rs ++ [a]) k =
      groupOf rs k ++ (if a.article_id = k then [a] else []) := by
  rw [groupOf, groupOf, List.filter_append]
  congr 1
  by_cases h : a.article_id = k <;> simp [h]

lemma groupOf_append_ne (rs : List ArticleMetadata) (a : ArticleMetadata) (k : String)
    (h : a.article_id ≠ k) : groupOf (rs ++ [a]) k = groupOf rs k := by
  rw [groupOf_append, if_neg h, List.append_nil]

lemma maxDepthOf_append_ne (rs : List ArticleMetadata) (a : ArticleMetadata)
    (k : String) (h : a.article_id ≠ k) :
    maxDepthOf (rs ++ [a]) k = maxDepthOf rs k := by
  rw [maxDepthOf, maxDepthOf, groupOf_append_ne rs a k h]

lemma firstDeepest_append_ne (rs : List ArticleMetadata) (a : ArticleMetadata)
    (k : String) (h : a.article_id ≠ k) :
    firstDeepest (rs ++ [a]) k = firstDeepest rs k := by
  rw [firstDeepest, firstDeepest, groupOf_append_ne rs a k h,
    maxDepthOf_append_ne rs a k h]

lemma maxDepthOf_append_self (rs : List ArticleMetadata) (a : ArticleMetadata)
    (k : String) (h : a.article_id = k) :
    maxDepthOf (rs ++ [a]) k = Nat.max (maxDepthOf rs k) a.depth := by
  rw [maxDepthOf, groupOf_append, if_pos h, List.map_append, List.foldl_append]
  rfl

/-- The single-pass dictionary built by `deduplicate_keep_deepest`
satisfies: every stored value sits under its own `article_id`, keys are
unique, and the binding at key `k` is exactly the first-seen deepest
record of the identifier group of `k`. -/
theorem dedupState_inv (records : List ArticleMetadata) :
    (∀ p ∈ records.foldl dedupStep [], p.2.article_id = p.1) ∧
    ((records.foldl dedupStep []).map Prod.fst).Nodup ∧
    (∀ k : String, (records.foldl dedupStep []).find? (fun p => p.1 == k) =
      (firstDeepest records k).map (fun r => (k, r))) := by
  induction records using List.reverseRecOn with
  | nil =>
    refine ⟨by simp, by simp, ?_⟩
    intro k
    simp [firstDeepest, groupOf]
  | append_singleton rs a ih =>
    obtain ⟨ih1, ih2, ih3⟩ := ih
    have hfind := ih3 a.article_id
    rw [List.foldl_append, List.foldl_cons, List.foldl_nil]
    cases hfd : firstDeepest rs a.article_id with
    | none =>
      have hmf : (rs.foldl dedupStep []).find? (fun p => p.1 == a.article_id) = none := by
        rw [hfind, hfd]
        rfl
      have hstep : dedupStep (rs.foldl dedupStep []) a =
          rs.foldl dedupStep [] ++ [(a.article_id, a)] := by
        simp only [dedupStep, hmf]
      have hgnil : groupOf rs a.article_id = [] := by
        by_contra hne
        rcases exists_firstDeepest rs a.article_id hne with ⟨r, hr, _, _⟩
        rw [hfd] at hr
        cases hr
      rw [hstep]
      refine ⟨?_, ?_, ?_⟩
      · intro p hp
        rcases List.mem_append.mp hp with h | h
        · exact ih1 p h
        · rcases List.mem_singleton.mp h with rfl
          rfl
      · rw [List.map_append]
        refine List.Nodup.append ih2 (by simp) ?_
        intro x hx hx2
        rcases List.mem_singleton.mp hx2 with rfl
        rcases List.mem_map.mp hx with ⟨p, hp, hpk⟩
        have : ((rs.foldl dedupStep []).find? (fun q => q.1 == a.article_id)).isSome := by
          rw [List.find?_isSome]
          exact ⟨p, hp, by simp [hpk]⟩
        rw [hmf] at this
        cases this
      · intro k
        rw [find?_append_or]
        by_cases hk : a.article_id = k
        · subst hk
          rw [hmf]
          have hg : groupOf (rs ++ [a]) a.article_id = [a] := by
            rw [groupOf_append, if_pos rfl, hgnil, List.nil_append]
          have hmd : maxDepthOf (rs ++ [a]) a.article_id = a.depth := by
            rw [maxDepthOf, hg]
            simp [Nat.max_def]
          rw [firstDeepest, hg, hmd]
          simp
        · rw [firstDeepest_append_ne rs a k hk, ← ih3 k]
          cases hfk : (rs.foldl dedupStep []).find? (fun p => p.1 == k) with
          | none =>
            simp only [Option.orElse]
            rw [List.find?_cons_of_neg _ (by simp [hk]), List.find?_nil]
          | some q => rfl
    | some e =>
      have hmf : (rs.foldl dedupStep []).find? (fun p => p.1 == a.article_id) =
          some (a.article_id, e) := by
        rw [hfind, hfd]
        rfl
      have he_depth : e.depth = maxDepthOf rs a.article_id := by
        simpa using List.find?_some hfd
      have he_mem : e ∈ groupOf rs a.article_id := List.mem_of_find?_eq_some hfd
      by_cases hgt : a.depth > e.depth
      · have hstep : dedupStep (rs.foldl dedupStep []) a =
            setAssoc (rs.foldl dedupStep []) a.article_id a := by
          simp only [dedupStep, hmf]
          rw [if_pos hgt]
        rw [hstep]
        refine ⟨?_, ?_, ?_⟩
        · intro p hp
          rcases mem_setAssoc hp with h | h
          · exact ih1 p h
          · rw [h]
        · rw [setAssoc_map_fst]
          exact ih2
        · intro k
          by_cases hk : a.article_id = k
          · subst hk
            rw [find?_setAssoc_self _ _ _ (by rw [hmf]; rfl)]
            have hmd : maxDepthOf (rs ++ [a]) a.article_id = a.depth := by
              rw [maxDepthOf_append_self rs a _ rfl, ← he_depth]
              exact max_eq_right (Nat.le_of_lt hgt)
            have hgnone : (groupOf rs a.article_id).find?
                (fun x => x.depth == a.depth) = none := by
              rw [List.find?_eq_none]
              intro x hx
              have : x.depth ≤ maxDepthOf rs a.article_id :=
                le_foldl_max_of_mem 0 (List.mem_map_of_mem _ hx)
              simp only [beq_iff_eq]
              omega
            rw [firstDeepest, groupOf_append, if_pos rfl, hmd, find?_append_or,
              hgnone]
            simp
          · rw [find?_setAssoc_ne _ _ _ _ (fun h => hk h.symm), ih3 k,
              firstDeepest_append_ne rs a k hk]
      · have hstep : dedupStep (rs.foldl dedupStep []) a = rs.foldl dedupStep [] := by
          simp only [dedupStep, hmf]
          rw [if_neg hgt]
        rw [hstep]
        refine ⟨ih1, ih2, ?_⟩
        intro k
        by_cases hk : a.article_id = k
        · subst hk
          rw [hmf]
          have hmd : maxDepthOf (rs ++ [a]) a.article_id = maxDepthOf rs a.article_id := by
            rw [maxDepthOf_append_self rs a _ rfl, ← he_depth]
            exact max_eq_left (Nat.le_of_not_lt hgt)
          rw [firstDeepest, groupOf_append, if_pos rfl, hmd, find?_append_or]
          rw [firstDeepest] at hfd
          rw [hfd]
          rfl
        · rw [ih3 k, firstDeepest_append_ne rs a k hk]

/-- Values of the dictionary, filtered to one key, are exactly the
stored binding of that key. -/
lemma filter_values_eq (m : List (String × ArticleMetadata))
    (hkeys : ∀ p ∈ m, p.2.article_id = p.1) (hnd : (m.map Prod.fst).Nodup)
    (k : String) (r : ArticleMetadata)
    (hf : m.find? (fun p => p.1 == k) = some (k, r)) :
    (m.map Prod.snd).filter (fun a => a.article_id == k) = [r] := by
  induction m with
  | nil => simp at hf
  | cons q rest ih =>
    obtain ⟨k0, v0⟩ := q
    by_cases h0 : k0 = k
    · subst h0
      rw [List.find?_cons_of_pos _ (by simp)] at hf
      have hv : v0 = r := by
        injection hf with h
        injection h
      subst hv
      have hid : v0.article_id = k0 := hkeys (k0, v0) (List.mem_cons_self _ _)
      have hrest : (rest.map Prod.snd).filter (fun a => a.article_id == k0) = [] := by
        rw [List.filter_eq_nil_iff]
        intro x hx
        rcases List.mem_map.mp hx with ⟨p, hp, hpx⟩
        have hxk : x.article_id = p.1 := by
          rw [← hpx]
          exact hkeys p (List.mem_cons_of_mem _ hp)
        have hne : p.1 ≠ k0 := by
          intro hcon
          have : k0 ∈ rest.map Prod.fst := by
            rw [← hcon]
            exact List.mem_map_of_mem _ hp
          rw [List.map_cons, List.nodup_cons] at hnd
          exact hnd.1 this
        simp [hxk, hne]
      rw [List.map_cons, List.filter_cons_of_pos (by simp [hid]), hrest]
    · rw [List.find?_cons_of_neg _ (by simp [h0])] at hf
      have hid : v0.article_id = k0 := hkeys (k0, v0) (List.mem_cons_self _ _)
      rw [List.map_cons, List.filter_cons_of_neg (by simp [hid, h0])]
      refine ih (fun p hp => hkeys p (List.mem_cons_of_mem _ hp)) ?_ hf
      rw [List.map_cons, List.nodup_cons] at hnd
      exact hnd.2

end HtmlStructureParser

/-- C1: for every list of `ArticleMetadata` and every article
identifier occurring in it, `deduplicate_keep_deepest` returns exactly
one record bearing that identifier; its hierarchy-path length is the
maximum among the input records sharing the identifier, and it is the
first-seen record attaining that maximum. -/
theorem HtmlStructureParser.deduplicate_keep_deepest_spec :
    ∀ (records : List ArticleMetadata) (k : String),
      k ∈ records.map ArticleMetadata.article_id →
      ∃ r, (HtmlStructureParser.deduplicate_keep_deepest records).filter
          (fun a => a.article_id == k) = [r] ∧
        r.depth = HtmlStructureParser.maxDepthOf records k ∧
        HtmlStructureParser.firstDeepest records k = some r := by
  intro records k hk
  have hgne : HtmlStructureParser.groupOf records k ≠ [] := by
    rcases List.mem_map.mp hk with ⟨x, hx, hxid⟩
    intro hnil
    have hxg : x ∈ HtmlStructureParser.groupOf records k := by
      rw [HtmlStructureParser.groupOf, List.mem_filter]
      exact ⟨hx, by simp [hxid]⟩
    rw [hnil] at hxg
    cases hxg
  rcases HtmlStructureParser.exists_firstDeepest records k hgne with ⟨r, hr, hrd, _⟩
  obtain ⟨h1, h2, h3⟩ := HtmlStructureParser.dedupState_inv records
  have hf : (records.foldl HtmlStructureParser.dedupStep []).find?
      (fun p => p.1 == k) = some (k, r) := by
    rw [h3 k, hr]
    rfl
  refine ⟨r, ?_, hrd, hr⟩
  exact HtmlStructureParser.filter_values_eq _ h1 h2 k r hf

/-- Witness for C1, at the duplicated-identifier input of the
repository's own test (`tests/test_structure_parser.py`): identifier
`"1"` appears at depth 1 and depth 2; lookup keeps the depth-2 record. -/
theorem HtmlStructureParser.deduplicate_keep_deepest_spec_witness :
    ("1" ∈ ([⟨"1", "E", ["Root"], "t1", some "A-001", none⟩,
      ⟨"1", "E", ["Root", "Sub"], "t2", some "A-001", none⟩,
      ⟨"2", "E", ["Root"], "t3", some "B-002", none⟩] :
        List ArticleMetadata).map ArticleMetadata.article_id) ∧
    ∃ r, (HtmlStructureParser.deduplicate_keep_deepest
        [⟨"1", "E", ["Root"], "t1", some "A-001", none⟩,
         ⟨"1", "E", ["Root", "Sub"], "t2", some "A-001", none⟩,
         ⟨"2", "E", ["Root"], "t3", some "B-002", none⟩]).filter
        (fun a => a.article_id == "1") = [r] ∧
      r.depth = HtmlStructureParser.maxDepthOf
        [⟨"1", "E", ["Root"], "t1", some "A-001", none⟩,
         ⟨"1", "E", ["Root", "Sub"], "t2", some "A-001", none⟩,
         ⟨"2", "E", ["Root"], "t3", some "B-002", none⟩] "1" ∧
      HtmlStructureParser.firstDeepest
        [⟨"1", "E", ["Root"], "t1", some "A-001", none⟩,
         ⟨"1", "E", ["Root", "Sub"], "t2", some "A-001", none⟩,
         ⟨"2", "E", ["Root"], "t3", some "B-002", none⟩] "1" = some r :=
  ⟨by decide, HtmlStructureParser.deduplicate_keep_deepest_spec _ "1" (by decide)⟩

/-! ## HTTP fetch client (`http/client.py`)

The network is modelled by an attempt-outcome sequence `s : Nat → FetchOut R`:
`s i` is what the `i`-th call to `_fetch_internal` does — return a response,
raise `httpx.HTTPStatusError` with a status code, raise a network/timeout
error, or raise an unexpected exception class.  The tenacity-wrapped loop
(`stop_after_attempt`, `reraise=False`) becomes `tenacityRun`: it returns the
wrapped function's value when no exception escapes an attempt, retries while
attempts remain on a raised (retryable) exception, and after exhaustion
produces a `RetryError`, modelled as `.error ()`; the second component counts
the HTTP attempt cycles consumed.  Backoff sleeps do not affect results and
are not modelled here. -/

/-- Outcome of one underlying HTTP attempt (`_fetch_internal`). -/
inductive FetchOut (R : Type) where
  | ok (r : R)
  | statusErr (code : Nat)
  | netErr
  | unexpected

namespace HttpClient

/-- `HttpClient._should_retry_status_error` (`client.py` lines 91–100). -/
def should_retry_status_error (status_code : Nat) : Bool :=
  if 500 ≤ status_code ∧ status_code < 600 then true
  else if status_code = 408 ∨ status_code = 429 then true
  else false

/-- The tenacity retry loop around `_fetch_with_retry` (`client.py`
lines 121–153), with `fuel` attempts remaining, about to run attempt
`i`.  A terminal status or an unexpected error makes the wrapped
function return `None` (no retry, `.ok none`); a retryable status or
network error re-raises, retried while fuel remains; exhaustion yields
`RetryError` (`.error ()`).  Returns the result and the number of
attempts consumed. -/
def tenacityRun {R : Type} (s : Nat → FetchOut R) (i : Nat) :
    Nat → Except Unit (Option R) × Nat
  | 0 => (.error (), 0)
  | fuel + 1 =>
    match s i with
    | .ok r => (.ok (some r), 1)
    | .unexpected => (.ok none, 1)
    | .statusErr c =>
      if should_retry_status_error c then
        if fuel = 0 then (.error (), 1)
        else
          let x := tenacityRun s (i + 1) fuel
          (x.1, x.2 + 1)
      else (.ok none, 1)
    | .netErr =>
      if fuel = 0 then (.error (), 1)
      else
        let x := tenacityRun s (i + 1) fuel
        (x.1, x.2 + 1)

/-- `HttpClient.fetch` (`client.py` lines 102–165): run the tenacity
loop with `max_retries` attempts; the outer `try/except` maps any
escaping exception (in particular the post-exhaustion `RetryError`) to
`None`. -/
def fetch {R : Type} (s : Nat → FetchOut R) (max_retries : Nat := 3) : Option R :=
  match (tenacityRun s 0 max_retries).1 with
  | .ok v => v
  | .error _ => none

lemma should_retry_false_of_terminal {c : Nat} (h1 : 400 ≤ c) (h2 : c < 500)
    (h3 : c ≠ 408) (h4 : c ≠ 429) : should_retry_status_error c = false := by
  rw [should_retry_status_error]
  rw [if_neg (by omega), if_neg (by tauto)]

lemma fetch_terminal_first {R : Type} (s : Nat → FetchOut R) (m : Nat) (c : Nat)
    (h1 : 400 ≤ c) (h2 : c < 500) (h3 : c ≠ 408) (h4 : c ≠ 429)
    (hs : s 0 = .statusErr c) (hm : 0 < m) :
    fetch s m = none ∧ (tenacityRun s 0 m).2 = 1 := by
  obtain ⟨m', rfl⟩ := Nat.exists_eq_succ_of_ne_zero (Nat.pos_iff_ne_zero.mp hm)
  have hrun : tenacityRun s 0 (m' + 1) = (.ok none, 1) := by
    rw [tenacityRun, hs]
    simp [should_retry_false_of_terminal h1 h2 h3 h4]
  exact ⟨by rw [fetch, hrun], by rw [hrun]⟩

lemma tenacityRun_netErr_error {R : Type} (s : Nat → FetchOut R)
    (hs : ∀ i, s i = .netErr) : ∀ fuel i, (tenacityRun s i fuel).1 = .error () := by
  intro fuel
  induction fuel with
  | zero => intro i; rfl
  | succ f ih =>
    intro i
    rw [tenacityRun, hs i]
    by_cases hf : f = 0
    · simp [hf]
    · simp only [hf, if_false]
      exact ih (i + 1)

lemma tenacityRun_netErr_count {R : Type} (s : Nat → FetchOut R)
    (hs : ∀ i, s i = .netErr) : ∀ fuel i, (tenacityRun s i (fuel + 1)).2 = fuel + 1 := by
  intro fuel
  induction fuel with
  | zero =>
    intro i
    rw [tenacityRun, hs i]
    simp
  | succ f ih =>
    intro i
    rw [tenacityRun, hs i]
    simp only [Nat.succ_ne_zero, if_false]
    rw [ih (i + 1)]

lemma fetch_netErr_none {R : Type} (s : Nat → FetchOut R)
    (hs : ∀ i, s i = .netErr) (m : Nat) : fetch s m = none := by
  rw [fetch, tenacityRun_netErr_error s hs m 0]

end HttpClient

/-- C4: `should_retry_status_error` holds exactly on {408, 429} ∪
[500, 599]; on a terminal (other 4xx) first status the fetch returns
`none` after a single attempt (no retry); when every attempt fails
with a retryable network error the fetch exhausts its retries and
returns `none`; an unexpected error class returns `none` without
retry; and whenever the tenacity loop ends in a raised `RetryError`
the outer handler still returns `none` — `fetch` never raises (it is a
total function into `Option R`). -/
theorem HttpClient.fetch_error_policy :
    (∀ c : Nat, HttpClient.should_retry_status_error c = true ↔
      (c = 408 ∨ c = 429 ∨ (500 ≤ c ∧ c ≤ 599))) ∧
    (∀ (R : Type) (s : Nat → FetchOut R) (m c : Nat),
      400 ≤ c → c < 500 → c ≠ 408 → c ≠ 429 → s 0 = .statusErr c → 0 < m →
      HttpClient.fetch s m = none ∧ (HttpClient.tenacityRun s 0 m).2 = 1) ∧
    (∀ (R : Type) (s : Nat → FetchOut R) (m : Nat),
      (∀ i, s i = .netErr) → HttpClient.fetch s m = none) ∧
    (∀ (R : Type) (s : Nat → FetchOut R) (m : Nat),
      s 0 = FetchOut.unexpected → 0 < m →
      HttpClient.fetch s m = none ∧ (HttpClient.tenacityRun s 0 m).2 = 1) ∧
    (∀ (R : Type) (s : Nat → FetchOut R) (m : Nat),
      (HttpClient.tenacityRun s 0 m).1 = .error () → HttpClient.fetch s m = none) := by
  refine ⟨?_, ?_, ?_, ?_, ?_⟩
  · intro c
    rw [HttpClient.should_retry_status_error]
    split
    · simp
      omega
    · split
      · simp
        omega
      · simp
        omega
  · intro R s m c h1 h2 h3 h4 hs hm
    exact HttpClient.fetch_terminal_first s m c h1 h2 h3 h4 hs hm
  · intro R s m hs
    exact HttpClient.fetch_netErr_none s hs m
  · intro R s m hs hm
    obtain ⟨m', rfl⟩ := Nat.exists_eq_succ_of_ne_zero (Nat.pos_iff_ne_zero.mp hm)
    have hrun : HttpClient.tenacityRun s 0 (m' + 1) = (.ok none, 1) := by
      rw [HttpClient.tenacityRun, hs]
    exact ⟨by rw [HttpClient.fetch, hrun], by rw [hrun]⟩
  · intro R s m herr
    rw [HttpClient.fetch, herr]

/-- Witness for C4: status 404 on the first attempt makes a
3-attempt fetch return `none` after exactly one attempt, and
status 503 is retryable. -/
theorem HttpClient.fetch_error_policy_witness :
    (HttpClient.should_retry_status_error 503 = true ↔
      ((503 : Nat) = 408 ∨ (503 : Nat) = 429 ∨ (500 ≤ (503 : Nat) ∧ (503 : Nat) ≤ 599))) ∧
    (HttpClient.fetch (R := Nat) (fun _ => .statusErr 404) 3 = none ∧
      (HttpClient.tenacityRun (R := Nat) (fun _ => .statusErr 404) 0 3).2 = 1) :=
  ⟨HttpClient.fetch_error_policy.1 503,
   HttpClient.fetch_error_policy.2.1 Nat (fun _ => .statusErr 404) 3 404
     (by decide) (by decide) (by decide) (by decide) rfl (by decide)⟩

/-! ## Concurrent HTTP client (`http/concurrent.py`)

`fetch_all` creates one task per URL (in input order), runs them under the
semaphore, and collects them with `asyncio.gather(*tasks,
return_exceptions=True)`, which yields, in task order, either the task's
return value or the exception it raised.  A task's outcome is therefore a
`GatherResult`: the returned `Option R` of `fetch_with_retry`, or an escaped
exception. -/

/-- One entry of the `asyncio.gather(..., return_exceptions=True)`
result list. -/
inductive GatherResult (R : Type) where
  | val (r : Option R)
  | exc (e : String)

namespace ConcurrentHttpClient

/-- The result-processing loop of `fetch_all` (`concurrent.py` lines
87–94): exceptions become `None`, values pass through, order kept. -/
def processResults {R : Type} : List (GatherResult R) → List (Option R)
  | [] => []
  | .val r :: rest => r :: processResults rest
  | .exc _ :: rest => none :: processResults rest

/-- `ConcurrentHttpClient.fetch_all` (`concurrent.py` lines 62–99):
one task per URL in order, gathered with `return_exceptions=True`,
then exception-to-`None` processing.  `o u` is the outcome of the task
for URL `u`. -/
def fetch_all {R : Type} (urls : List String) (o : String → GatherResult R) :
    List (Option R) :=
  processResults (urls.map o)

/-- The value an outcome settles to in the processed result list. -/
def settleOutcome {R : Type} : GatherResult R → Option R
  | .val r => r
  | .exc _ => none

lemma processResults_eq_map {R : Type} (l : List (GatherResult R)) :
    processResults l = l.map settleOutcome := by
  induction l with
  | nil => rfl
  | cons x rest ih =>
    cases x <;> simp [processResults, settleOutcome, ih]

end ConcurrentHttpClient

/-- C2: `fetch_all` returns one entry per input URL, in input order —
the `i`-th entry is the settled outcome of the `i`-th URL's task — and
a task whose exception escapes contributes `none` at its position
while every other position is still computed (the result list always
has full length). -/
theorem ConcurrentHttpClient.fetch_all_spec :
    ∀ (R : Type) (urls : List String) (o : String → GatherResult R),
      (ConcurrentHttpClient.fetch_all urls o).length = urls.length ∧
      (∀ i : Nat, (ConcurrentHttpClient.fetch_all urls o)[i]? =
        (urls[i]?).map (fun u => ConcurrentHttpClient.settleOutcome (o u))) ∧
      (∀ (i : Nat) (u : String) (e : String), urls[i]? = some u → o u = .exc e →
        (ConcurrentHttpClient.fetch_all urls o)[i]? = some none) := by
  intro R urls o
  rw [ConcurrentHttpClient.fetch_all, ConcurrentHttpClient.processResults_eq_map,
    List.map_map]
  refine ⟨by simp, ?_, ?_⟩
  · intro i
    rw [List.getElem?_map]
    rfl
  · intro i u e hu he
    rw [List.getElem?_map, hu]
    simp [ConcurrentHttpClient.settleOutcome, he]

/-- Witness for C2: three URLs with a success, a `None` fetch result
and an escaped exception; the exception's position settles to `none`
and the length is preserved. -/
theorem ConcurrentHttpClient.fetch_all_spec_witness :
    (ConcurrentHttpClient.fetch_all (R := Nat) ["a", "b", "c"]
      (fun u => if u = "a" then .val (some 7) else if u = "b" then .val none
        else .exc "boom")).length = 3 ∧
    (ConcurrentHttpClient.fetch_all (R := Nat) ["a", "b", "c"]
      (fun u => if u = "a" then .val (some 7) else if u = "b" then .val none
        else .exc "boom"))[2]? = some none :=
  ⟨(ConcurrentHttpClient.fetch_all_spec Nat ["a", "b", "c"] _).1,
   (ConcurrentHttpClient.fetch_all_spec Nat ["a", "b", "c"] _).2.2 2 "c" "boom"
     (by rfl) (by rfl)⟩

/-! ## Outer retry loop of the concurrent client (`concurrent.py` lines 29–60)

`fetch_with_retry` calls the wrapped `HttpClient.fetch` repeatedly: `inner k`
is the value returned by the `k`-th invocation of `self.client.fetch(url,
client)` (which, as called there, uses the client's own default of 3
attempts).  The loop makes up to `max_retries` invocations, sleeping
`retry_delay` (doubled after each failure) between them.  The embedding
returns the result, the number of inner invocations made, and the list of
delays slept (as exact rationals; the Python floats 1.0, 2.0, 4.0, … are
exactly representable). -/

namespace ConcurrentHttpClient

/-- The loop of `fetch_with_retry`, about to run invocation `k` with
current delay `d` and `fuel` invocations remaining.  No sleep happens
after the final failed invocation. -/
def fetchWithRetryAux {R : Type} (inner : Nat → Option R) (k : Nat) (d : ℚ) :
    Nat → Option R × Nat × List ℚ
  | 0 => (none, 0, [])
  | fuel + 1 =>
    match inner k with
    | some r => (some r, 1, [])
    | none =>
      if fuel = 0 then (none, 1, [])
      else
        let x := fetchWithRetryAux inner (k + 1) (2 * d) fuel
        (x.1, x.2.1 + 1, d :: x.2.2)

/-- `ConcurrentHttpClient.fetch_with_retry` (`concurrent.py` lines
29–60) as invoked by `fetch_all`: retries the whole wrapped fetch
whenever it returned `None`, up to `max_retries` times, doubling the
delay after each failure. -/
def fetch_with_retry {R : Type} (inner : Nat → Option R)
    (max_retries : Nat := 3) (retry_delay : ℚ := 1) : Option R × Nat × List ℚ :=
  fetchWithRetryAux inner 0 retry_delay max_retries

/-- Total number of underlying HTTP attempt cycles a single URL incurs
in `fetch_all`: `s k i` is the outcome of HTTP attempt `i` inside the
`k`-th invocation of `HttpClient.fetch` (which `fetch_with_retry`
calls with the fetch client's default of 3 attempts). -/
def underlyingAttempts {R : Type} (s : Nat → Nat → FetchOut R) (m : Nat) : Nat :=
  let inner := fun k => HttpClient.fetch (s k) 3
  ((List.range (fetch_with_retry inner m 1).2.1).map
    (fun k => (HttpClient.tenacityRun (s k) 0 3).2)).sum

lemma fetchWithRetryAux_all_none {R : Type} (inner : Nat → Option R)
    (hin : ∀ k, inner k = none) :
    ∀ (m k : Nat) (d : ℚ),
      (fetchWithRetryAux inner k d m).1 = none ∧
      (fetchWithRetryAux inner k d m).2.1 = m ∧
      (fetchWithRetryAux inner k d m).2.2 =
        (List.range (m - 1)).map (fun i => d * 2 ^ i) := by
  intro m
  induction m with
  | zero =>
    intro k d
    refine ⟨rfl, rfl, ?_⟩
    simp [fetchWithRetryAux]
  | succ fuel ih =>
    intro k d
    rw [fetchWithRetryAux, hin k]
    cases fuel with
    | zero =>
      refine ⟨rfl, rfl, ?_⟩
      simp
    | succ fuel' =>
      obtain ⟨h1, h2, h3⟩ := ih (k + 1) (2 * d)
      simp only [Nat.succ_ne_zero, if_false]
      refine ⟨h1, by rw [h2], ?_⟩
      rw [h3]
      rw [Nat.succ_sub_one, Nat.succ_sub_one, List.range_succ_eq_map,
        List.map_cons, List.map_map]
      congr 1
      · simp
      · refine List.map_congr_left ?_
        intro i _
        simp only [Function.comp_apply]
        rw [pow_succ]
        ring

end ConcurrentHttpClient

/-- C10: inside `fetch_all`, whenever the wrapped `HttpClient.fetch`
keeps returning `None` — including on a terminal, non-retryable 4xx
status — `fetch_with_retry` re-invokes the full fetch `max_retries`
times (default 3) with delays doubling from `retry_delay` between
invocations; since the inner fetch is called with its own default
budget of 3 attempts, a URL failing with retryable errors throughout
undergoes `max_retries * 3` underlying HTTP attempt cycles, which at
the default `max_retries = 3` equals `max_retries * max_retries = 9`
rather than the fetch client's single budget of 3. -/
theorem ConcurrentHttpClient.fetch_with_retry_amplification :
    (∀ (R : Type) (inner : Nat → Option R) (m : Nat) (d : ℚ),
      (∀ k, inner k = none) →
      (ConcurrentHttpClient.fetch_with_retry inner m d).1 = none ∧
      (ConcurrentHttpClient.fetch_with_retry inner m d).2.1 = m ∧
      (ConcurrentHttpClient.fetch_with_retry inner m d).2.2 =
        (List.range (m - 1)).map (fun i => d * 2 ^ i)) ∧
    (∀ (R : Type) (c : Nat), 400 ≤ c → c < 500 → c ≠ 408 → c ≠ 429 →
      ∀ (s : Nat → Nat → FetchOut R), (∀ k, s k 0 = .statusErr c) →
      ∀ m : Nat, (ConcurrentHttpClient.fetch_with_retry
        (fun k => HttpClient.fetch (s k) 3) m 1).2.1 = m) ∧
    (∀ (R : Type) (s : Nat → Nat → FetchOut R) (m : Nat),
      (∀ k i, s k i = FetchOut.netErr) →
      ConcurrentHttpClient.underlyingAttempts s m = m * 3 ∧
      (m = 3 → ConcurrentHttpClient.underlyingAttempts s m = m * m)) := by
  refine ⟨?_, ?_, ?_⟩
  · intro R inner m d hin
    exact ConcurrentHttpClient.fetchWithRetryAux_all_none inner hin m 0 d
  · intro R c h1 h2 h3 h4 s hs m
    have hin : ∀ k, HttpClient.fetch (s k) 3 = none := fun k =>
      (HttpClient.fetch_terminal_first (s k) 3 c h1 h2 h3 h4 (hs k) (by omega)).1
    exact (ConcurrentHttpClient.fetchWithRetryAux_all_none _ hin m 0 1).2.1
  · intro R s m hs
    have hin : ∀ k, HttpClient.fetch (s k) 3 = none := fun k =>
      HttpClient.fetch_netErr_none (s k) (hs k) 3
    have hinv : (ConcurrentHttpClient.fetch_with_retry
        (fun k => HttpClient.fetch (s k) 3) m 1).2.1 = m :=
      (ConcurrentHttpClient.fetchWithRetryAux_all_none _ hin m 0 1).2.1
    have hcount : ∀ k, (HttpClient.tenacityRun (s k) 0 3).2 = 3 := fun k =>
      HttpClient.tenacityRun_netErr_count (s k) (hs k) 2 0
    have hmain : ConcurrentHttpClient.underlyingAttempts s m = m * 3 := by
      rw [ConcurrentHttpClient.underlyingAttempts]
      simp only [hinv]
      rw [List.map_congr_left (fun k _ => hcount k), List.map_const']
      simp [mul_comm]
    exact ⟨hmain, fun hm => by rw [hmain, hm]⟩

/-- Witness for C10: with every underlying attempt a network error and
the default budgets (3 outer invocations × 3 inner attempts), one URL
incurs 9 HTTP attempt cycles, and the delays slept are 1s then 2s. -/
theorem ConcurrentHttpClient.fetch_with_retry_amplification_witness :
    (ConcurrentHttpClient.fetch_with_retry (R := Nat) (fun _ => none) 3 1).2.2 =
      [1, 2] ∧
    ConcurrentHttpClient.underlyingAttempts (R := Nat) (fun _ _ => .netErr) 3 = 3 * 3 := by
  constructor
  · have h := (ConcurrentHttpClient.fetch_with_retry_amplification.1 Nat
      (fun _ => none) 3 1 (fun _ => rfl)).2.2
    rw [h]
    norm_num [List.range_succ]
  · exact (ConcurrentHttpClient.fetch_with_retry_amplification.2.2 Nat
      (fun _ _ => .netErr) 3 (fun _ _ => rfl)).1

/-! ## Aggregator (`processors/aggregator.py`)

Python dicts (insertion-ordered, unique keys) are modelled by
`pyDictSet`/`pyDictGet` on association lists: setting an existing key
replaces its value in place, a new key is appended. -/

/-- `d[k] = v` on a Python dict. -/
def pyDictSet {α : Type} : List (String × α) → String → α → List (String × α)
  | [], k, v => [(k, v)]
  | (k0, v0) :: rest, k, v =>
      if k0 == k then (k, v) :: rest else (k0, v0) :: pyDictSet rest k v

/-- `d.get(k)` on a Python dict. -/
def pyDictGet {α : Type} (d : List (String × α)) (k : String) : Option α :=
  (d.find? (fun p => p.1 == k)).map Prod.snd

lemma pyDictGet_set_self {α : Type} (d : List (String × α)) (k : String) (v : α) :
    pyDictGet (pyDictSet d k v) k = some v := by
  induction d with
  | nil => simp [pyDictSet, pyDictGet]
  | cons p rest ih =>
    obtain ⟨k0, v0⟩ := p
    by_cases h0 : k0 = k
    · simp [pyDictSet, h0, pyDictGet]
    · rw [show pyDictSet ((k0, v0) :: rest) k v = (k0, v0) :: pyDictSet rest k v by
        simp [pyDictSet, h0]]
      rw [pyDictGet, List.find?_cons_of_neg _ (by simp [h0])]
      exact ih

lemma pyDictGet_set_ne {α : Type} (d : List (String × α)) (k : String) (v : α)
    (k' : String) (h : k' ≠ k) :
    pyDictGet (pyDictSet d k v) k' = pyDictGet d k' := by
  induction d with
  | nil => simp [pyDictSet, pyDictGet, Ne.symm h]
  | cons p rest ih =>
    obtain ⟨k0, v0⟩ := p
    by_cases h0 : k0 = k
    · subst h0
      rw [show pyDictSet ((k0, v0) :: rest) k0 v = (k0, v) :: rest by simp [pyDictSet]]
      rw [pyDictGet, pyDictGet, List.find?_cons_of_neg _ (by simp [Ne.symm h]),
        List.find?_cons_of_neg _ (by simp [Ne.symm h])]
    · rw [show pyDictSet ((k0, v0) :: rest) k v = (k0, v0) :: pyDictSet rest k v by
        simp [pyDictSet, h0]]
      by_cases h1 : k0 = k'
      · subst h1
        rw [pyDictGet, pyDictGet, List.find?_cons_of_pos _ (by simp),
          List.find?_cons_of_pos _ (by simp)]
      · rw [pyDictGet, pyDictGet, List.find?_cons_of_neg _ (by simp [h1]),
          List.find?_cons_of_neg _ (by simp [h1])]
        exact ih

lemma pyDictSet_of_not_mem {α : Type} (d : List (String × α)) (k : String) (v : α)
    (h : k ∉ d.map Prod.fst) : pyDictSet d k v = d ++ [(k, v)] := by
  induction d with
  | nil => rfl
  | cons p rest ih =>
    obtain ⟨k0, v0⟩ := p
    simp only [List.map_cons, List.mem_cons] at h
    push_neg at h
    rw [show pyDictSet ((k0, v0) :: rest) k v = (k0, v0) :: pyDictSet rest k v by
      simp [pyDictSet, Ne.symm h.1]]
    rw [ih h.2, List.cons_append]

namespace DataProcessor

/-- The metadata index of `aggregate_editions` (`aggregator.py` lines
31–33): `{metadata.edition_id: metadata for metadata in metadata_list}`. -/
def buildIndex (metadata_list : List GazetteMetadata) :
    List (String × GazetteMetadata) :=
  metadata_list.foldl (fun d m => pyDictSet d m.edition_id m) []

/-- The grouping loop of `aggregate_editions` (`aggregator.py` lines
38–63): pairs whose edition id is absent from the index are skipped;
surviving pairs are wrapped into `Article` and appended to their
edition's list. -/
def buildGroups (metadata_by_id : List (String × GazetteMetadata))
    (articles_with_content : List (ArticleMetadata × ArticleContent)) :
    List (String × List Article) :=
  articles_with_content.foldl (fun d item =>
    let edition_id := item.1.edition_id
    if (pyDictGet metadata_by_id edition_id).isSome then
      let article : Article := ⟨item.1, item.2⟩
      match pyDictGet d edition_id with
      | some l => pyDictSet d edition_id (l ++ [article])
      | none => pyDictSet d edition_id [article]
    else d) []

/-- `DataProcessor.aggregate_editions` (`aggregator.py` lines 15–86):
index the metadata by edition id, group surviving (record, content)
pairs by edition id, then emit one `GazetteEdition` per index entry
with `articles_by_edition.get(edition_id, [])`. -/
def aggregate_editions (metadata_list : List GazetteMetadata)
    (articles_with_content : List (ArticleMetadata × ArticleContent)) :
    List GazetteEdition :=
  let metadata_by_id := buildIndex metadata_list
  let articles_by_edition := buildGroups metadata_by_id articles_with_content
  metadata_by_id.map (fun p =>
    ⟨p.2, (pyDictGet articles_by_edition p.1).getD []⟩)

lemma buildIndex_of_nodup (metadata_list : List GazetteMetadata)
    (h : (metadata_list.map GazetteMetadata.edition_id).Nodup) :
    buildIndex metadata_list = metadata_list.map (fun m => (m.edition_id, m)) := by
  induction metadata_list using List.reverseRecOn with
  | nil => rfl
  | append_singleton ms m ih =>
    rw [List.map_append, List.nodup_append] at h
    obtain ⟨h1, _, h3⟩ := h
    rw [buildIndex, List.foldl_append, List.foldl_cons, List.foldl_nil]
    rw [show ms.foldl (fun d mm => pyDictSet d mm.edition_id mm) [] = buildIndex ms
      from rfl]
    rw [ih h1, pyDictSet_of_not_mem]
    · simp
    · have hfst : (ms.map fun mm => (mm.edition_id, mm)).map Prod.fst =
          ms.map GazetteMetadata.edition_id := by
        rw [List.map_map]
        rfl
      rw [hfst]
      intro hc
      exact h3 hc (by simp)

lemma buildGroups_lookup (metadata_by_id : List (String × GazetteMetadata))
    (pairs : List (ArticleMetadata × ArticleContent)) (k : String)
    (hk : (pyDictGet metadata_by_id k).isSome) :
    (pyDictGet (buildGroups metadata_by_id pairs) k).getD [] =
      (pairs.filter (fun p => p.1.edition_id == k)).map
        (fun p => (⟨p.1, p.2⟩ : Article)) := by
  induction pairs using List.reverseRecOn with
  | nil => rfl
  | append_singleton ps p ih =>
    rw [buildGroups, List.foldl_append, List.foldl_cons, List.foldl_nil]
    rw [show ps.foldl _ [] = buildGroups metadata_by_id ps from rfl]
    by_cases hsurv : (pyDictGet metadata_by_id p.1.edition_id).isSome
    · simp only [hsurv, if_true]
      by_cases hkk : p.1.edition_id = k
      · subst hkk
        rw [List.filter_append, List.filter_cons_of_pos (by simp),
          List.filter_nil, List.map_append]
        cases hgl : pyDictGet (buildGroups metadata_by_id ps) p.1.edition_id with
        | none =>
          rw [pyDictGet_set_self, Option.getD_some]
          rw [hgl] at ih
          simp only [Option.getD_none] at ih
          rw [← ih]
          simp
        | some l =>
          rw [pyDictGet_set_self, Option.getD_some]
          rw [hgl] at ih
          simp only [Option.getD_some] at ih
          rw [ih]
          simp
      · rw [List.filter_append, List.filter_cons_of_neg (by simp [hkk]),
          List.filter_nil, List.append_nil]
        cases hgl : pyDictGet (buildGroups metadata_by_id ps) p.1.edition_id with
        | none =>
          rw [pyDictGet_set_ne _ _ _ _ (fun hc => hkk hc.symm)]
          exact ih
        | some l =>
          rw [pyDictGet_set_ne _ _ _ _ (fun hc => hkk hc.symm)]
          exact ih
    · simp only [hsurv, if_false]
      have hkk : p.1.edition_id ≠ k := by
        intro hc
        rw [hc] at hsurv
        exact hsurv hk
      rw [List.filter_append, List.filter_cons_of_neg (by simp [hkk]),
        List.filter_nil, List.append_nil]
      exact ih

end DataProcessor

/-- C3 counterexample: two metadata entries sharing edition id `"1"`
collapse to a single dictionary binding (the later entry wins), so
`aggregate_editions` emits one `GazetteEdition` for two input metadata
entries — the claim's "one GazetteEdition for every input metadata
entry exactly once" fails. -/
theorem DataProcessor.aggregate_editions_counterexample :
    (DataProcessor.aggregate_editions
      [⟨"1", .str "2024-01-01", 1, false, 0, "", "u1"⟩,
       ⟨"1", .str "2024-01-02", 2, false, 0, "", "u2"⟩] []).length = 1 ∧
    ([⟨"1", .str "2024-01-01", 1, false, 0, "", "u1"⟩,
      ⟨"1", .str "2024-01-02", 2, false, 0, "", "u2"⟩] :
        List GazetteMetadata).length = 2 :=
  ⟨rfl, rfl⟩

/-- C3 (amended): when the metadata entries carry pairwise distinct
edition ids, `aggregate_editions` emits exactly one `GazetteEdition`
per input metadata entry, in input order — including editions with an
empty surviving article list — and each edition's article list is
exactly the input pairs bearing its edition id, in input order; pairs
whose edition id is absent from the metadata index appear nowhere. -/
theorem DataProcessor.aggregate_editions_amended :
    ∀ (metadata_list : List GazetteMetadata)
      (pairs : List (ArticleMetadata × ArticleContent)),
      (metadata_list.map GazetteMetadata.edition_id).Nodup →
      (DataProcessor.aggregate_editions metadata_list pairs).map
        GazetteEdition.metadata = metadata_list ∧
      (∀ e ∈ DataProcessor.aggregate_editions metadata_list pairs,
        e.articles = (pairs.filter
          (fun p => p.1.edition_id == e.metadata.edition_id)).map
          (fun p => (⟨p.1, p.2⟩ : Article))) := by
  intro metadata_list pairs hnd
  have hidx := DataProcessor.buildIndex_of_nodup metadata_list hnd
  constructor
  · rw [DataProcessor.aggregate_editions]
    simp only [hidx, List.map_map]
    refine Eq.trans (List.map_congr_left ?_) (List.map_id metadata_list)
    intro m _
    rfl
  · intro e he
    rw [DataProcessor.aggregate_editions] at he
    simp only [hidx, List.map_map] at he
    rcases List.mem_map.mp he with ⟨m, hm, hme⟩
    have hsome : (pyDictGet (metadata_list.map fun mm => (mm.edition_id, mm))
        m.edition_id).isSome := by
      have hfs : (List.find? (fun p => p.1 == m.edition_id)
          (metadata_list.map fun mm => (mm.edition_id, mm))).isSome := by
        rw [List.find?_isSome]
        exact ⟨(m.edition_id, m), List.mem_map_of_mem _ hm, by simp⟩
      rcases Option.isSome_iff_exists.mp hfs with ⟨q, hq⟩
      rw [pyDictGet, hq]
      rfl
    have hlook := DataProcessor.buildGroups_lookup
      (metadata_list.map fun mm => (mm.edition_id, mm)) pairs m.edition_id hsome
    rw [← hme]
    simp only [Function.comp_apply]
    exact hlook

/-- Metadata entry `"1"` for the C3 witness scenario. -/
def c3mdA : GazetteMetadata := ⟨"1", .str "2024-01-03", 1, false, 0, "", ""⟩

/-- Metadata entry `"2"` for the C3 witness scenario (no surviving
articles). -/
def c3mdB : GazetteMetadata := ⟨"2", .str "2024-01-03", 2, false, 0, "", ""⟩

/-- An article record of edition `"1"` for the C3 witness scenario. -/
def c3art (n : String) : ArticleMetadata := ⟨n, "1", ["Sec"], "t", some n, none⟩

/-- A content payload for the C3 witness scenario. -/
def c3content : ArticleContent := ⟨.text "x", .html⟩

/-- Three (record, content) pairs, all of edition `"1"`. -/
def c3pairs : List (ArticleMetadata × ArticleContent) :=
  [(c3art "a", c3content), (c3art "b", c3content), (c3art "c", c3content)]

/-- Witness for C3 (amended), at the spec's own scenario: two editions
with distinct ids, three articles on the first, none on the second —
both editions are emitted, the second with an empty article list. -/
theorem DataProcessor.aggregate_editions_amended_witness :
    (([c3mdA, c3mdB].map GazetteMetadata.edition_id).Nodup) ∧
    (DataProcessor.aggregate_editions [c3mdA, c3mdB] c3pairs).map
      GazetteEdition.metadata = [c3mdA, c3mdB] ∧
    (⟨c3mdB, []⟩ : GazetteEdition).articles =
      (c3pairs.filter (fun p => p.1.edition_id ==
        (⟨c3mdB, []⟩ : GazetteEdition).metadata.edition_id)).map
        (fun p => (⟨p.1, p.2⟩ : Article)) :=
  ⟨by decide,
   (DataProcessor.aggregate_editions_amended [c3mdA, c3mdB] c3pairs (by decide)).1,
   (DataProcessor.aggregate_editions_amended [c3mdA, c3mdB] c3pairs (by decide)).2
     ⟨c3mdB, []⟩ (by
       rw [show DataProcessor.aggregate_editions [c3mdA, c3mdB] c3pairs =
         [⟨c3mdA, c3pairs.map (fun p => (⟨p.1, p.2⟩ : Article))⟩, ⟨c3mdB, []⟩]
         from rfl]
       exact List.mem_cons_of_mem _ (List.mem_cons_self _ _))⟩

/-! ## Structure parser tree walk (`parsers/structure.py`, lines 16–72)

The selectolax DOM is embedded as `DomNode`; `node.css(sel)` searches the
node's whole subtree (all proper descendants, in document order), which is
the selectolax semantics of `css`/`css_first` — in particular the top-level
loop `for li in root_ul.css("li")` visits nested `li` elements too.  The
selectors the parser uses (`ul#tree`, `li`, `span.folder`, `ul`,
`a.linkMateria`) are tag/id/class selectors, captured by `Sel`. -/

/-- A DOM node: an element (tag, optional `id` attribute, class list,
remaining attributes, children) or a text node. -/
inductive DomNode where
  | elem (tag : String) (idAttr : Option String) (classes : List String)
      (attrs : List (String × String)) (children : List DomNode)
  | text (s : String)

mutual

/-- Size of a DOM subtree (for termination of the recursive walk). -/
def DomNode.size : DomNode → Nat
  | .text _ => 1
  | .elem _ _ _ _ cs => 1 + DomNode.sizeList cs

/-- Total size of a list of DOM subtrees. -/
def DomNode.sizeList : List DomNode → Nat
  | [] => 0
  | n :: ns => DomNode.size n + DomNode.sizeList ns

end

mutual

/-- All proper descendants of a node, in document (pre-)order. -/
def DomNode.descendants : DomNode → List DomNode
  | .text _ => []
  | .elem _ _ _ _ cs => DomNode.descList cs

/-- Descendants of a forest: each root followed by its descendants. -/
def DomNode.descList : List DomNode → List DomNode
  | [] => []
  | n :: ns => n :: DomNode.descendants n ++ DomNode.descList ns

end

mutual

/-- The text chunks of a subtree, in document order. -/
def DomNode.textNodes : DomNode → List String
  | .text s => [s]
  | .elem _ _ _ _ cs => DomNode.textNodesList cs

/-- The text chunks of a forest. -/
def DomNode.textNodesList : List DomNode → List String
  | [] => []
  | n :: ns => DomNode.textNodes n ++ DomNode.textNodesList ns

end

/-- A CSS selector of the shapes the parser uses: optional tag,
optional `#id`, optional `.class`. -/
structure Sel where
  tag : Option String
  id : Option String
  cls : Option String

/-- Whether a node matches a selector (text nodes never match). -/
def matchesSel (sel : Sel) : DomNode → Bool
  | .text _ => false
  | .elem t i cs _ _ =>
    (match sel.tag with | none => true | some st => st == t) &&
    (match sel.id with | none => true | some si => i == some si) &&
    (match sel.cls with | none => true | some sc => cs.contains sc)

/-- `node.css(sel)`: all matching proper descendants, document order. -/
def cssList (n : DomNode) (sel : Sel) : List DomNode :=
  n.descendants.filter (matchesSel sel)

/-- `node.css_first(sel)`. -/
def cssFirst (n : DomNode) (sel : Sel) : Option DomNode :=
  (cssList n sel).head?

/-- `node.text(strip=True)`: strip each text chunk, concatenate. -/
def textStrip (n : DomNode) : String :=
  String.join (n.textNodes.map pyTrim)

/-- `node.attributes.get(k)`. -/
def getAttr (n : DomNode) (k : String) : Option String :=
  match n with
  | .text _ => none
  | .elem _ _ _ attrs _ => (attrs.find? (fun p => p.1 == k)).map Prod.snd

/-- `span.folder` — category marker. -/
def selFolder : Sel := ⟨some "span", none, some "folder"⟩

/-- Bare `ul`. -/
def selUl : Sel := ⟨some "ul", none, none⟩

/-- Bare `li`. -/
def selLi : Sel := ⟨some "li", none, none⟩

/-- `a.linkMateria` — article link. -/
def selLink : Sel := ⟨some "a", none, some "linkMateria"⟩

/-- `ul#tree` — navigation tree root. -/
def selTree : Sel := ⟨some "ul", some "tree", none⟩

mutual

theorem DomNode.size_lt_of_mem_descendants {x : DomNode} :
    ∀ n : DomNode, x ∈ n.descendants → x.size < n.size
  | .text _, h => by simp [DomNode.descendants] at h
  | .elem t i c a cs, h => by
    rw [DomNode.descendants] at h
    have hle := DomNode.size_le_of_mem_descList cs h
    rw [DomNode.size]
    omega

theorem DomNode.size_le_of_mem_descList {x : DomNode} :
    ∀ ns : List DomNode, x ∈ DomNode.descList ns → x.size ≤ DomNode.sizeList ns
  | [], h => by simp [DomNode.descList] at h
  | n :: ns, h => by
    rw [DomNode.descList] at h
    rw [DomNode.sizeList]
    rcases List.mem_cons.mp h with h1 | h1
    · subst h1
      omega
    · rcases List.mem_append.mp h1 with h2 | h2
      · have := DomNode.size_lt_of_mem_descendants n h2
        omega
      · have := DomNode.size_le_of_mem_descList ns h2
        omega

end

lemma size_lt_of_mem_cssList {x n : DomNode} {sel : Sel} (h : x ∈ cssList n sel) :
    x.size < n.size :=
  DomNode.size_lt_of_mem_descendants n (List.mem_of_mem_filter h)

lemma size_lt_of_cssFirst {n x : DomNode} {sel : Sel} (h : cssFirst n sel = some x) :
    x.size < n.size :=
  size_lt_of_mem_cssList (List.mem_of_mem_head? (by rw [cssFirst] at h; rw [h]; rfl))

namespace HtmlStructureParser

/-- `parse_node` (`structure.py` lines 37–65): a node with a
`span.folder` descendant is a category — push its label and recurse
into each `li` of its first `ul` (selectolax `css`, i.e. every
descendant `li`); otherwise emit one record per `a.linkMateria`
descendant, stamped with `path.copy()` (paths are values here) and the
edition id passed into the call. -/
def parseNode (editionId : String) (li : DomNode) (path : List String) :
    List ArticleMetadata :=
  match h1 : cssFirst li selFolder with
  | some folderSpan =>
    match h2 : cssFirst li selUl with
    | some subUl =>
      ((cssList subUl selLi).attach.map (fun x =>
        parseNode editionId x.1 (path ++ [textStrip folderSpan]))).flatten
    | none => []
  | none =>
    (cssList li selLink).map (fun link =>
      { article_id := (getAttr link "data-materia-id").getD ""
        edition_id := editionId
        hierarchy_path := path
        title := textStrip link
        identifier := getAttr link "identificador"
        protocol := getAttr link "data-protocolo" })
termination_by li.size
decreasing_by
  have hx := x.2
  have h3 := size_lt_of_mem_cssList hx
  have h4 := size_lt_of_cssFirst h2
  omega

/-- `HtmlStructureParser.parse` (`structure.py` lines 16–72): find
`ul#tree` (missing → empty list), then run `parse_node` with an empty
path on every descendant `li` of the root. -/
def parse (doc : DomNode) (edition_id : String) : List ArticleMetadata :=
  match cssFirst doc selTree with
  | none => []
  | some root_ul =>
    ((cssList root_ul selLi).map (fun li => parseNode edition_id li [])).flatten

lemma parseNode_editionId (eid : String) :
    ∀ (n : Nat) (li : DomNode) (path : List String) (a : ArticleMetadata),
      li.size ≤ n → a ∈ parseNode eid li path → a.edition_id = eid := by
  intro n
  induction n with
  | zero =>
    intro li path a hle ha
    cases li with
    | text s => rw [DomNode.size] at hle; omega
    | elem t i c at_ cs => rw [DomNode.size] at hle; omega
  | succ n ih =>
    intro li path a hle ha
    rw [parseNode.eq_def] at ha
    split at ha
    · split at ha
      · rename_i folderSpan h1 subUl h2
        rcases List.mem_flatten.mp ha with ⟨l, hl, hal⟩
        rcases List.mem_map.mp hl with ⟨x, _, hxl⟩
        rw [← hxl] at hal
        refine ih x.1 _ a ?_ hal
        have hlt1 := size_lt_of_mem_cssList x.2
        have hlt2 := size_lt_of_cssFirst h2
        omega
      · exact absurd ha (List.not_mem_nil a)
    · rcases List.mem_map.mp ha with ⟨link, _, hrec⟩
      rw [← hrec]

end HtmlStructureParser

/-- The anchor of the C7 scenario: `<a class="linkMateria"
data-materia-id="1" identificador="X1">Artigo A</a>`. -/
def scAnchor : DomNode :=
  .elem "a" none ["linkMateria"]
    [("data-materia-id", "1"), ("identificador", "X1")] [.text "Artigo A"]

/-- The inner `<li>` holding the anchor. -/
def scLiInner : DomNode := .elem "li" none [] [] [scAnchor]

/-- The inner `<ul>`. -/
def scInnerUl : DomNode := .elem "ul" none [] [] [scLiInner]

/-- `<span class="folder">Secretaria</span>`. -/
def scSpan : DomNode := .elem "span" none ["folder"] [] [.text "Secretaria"]

/-- The outer `<li>` (category node). -/
def scLiOuter : DomNode := .elem "li" none [] [] [scSpan, scInnerUl]

/-- `<ul id="tree">` of the scenario. -/
def scTree : DomNode := .elem "ul" (some "tree") [] [] [scLiOuter]

/-- The scenario document. -/
def scDoc : DomNode := .elem "html" none [] [] [.elem "body" none [] [] [scTree]]

lemma parseNode_scLiInner (path : List String) :
    HtmlStructureParser.parseNode "E1" scLiInner path =
      [⟨"1", "E1", path, "Artigo A", some "X1", none⟩] := by
  rw [HtmlStructureParser.parseNode.eq_def]
  rfl

lemma parseNode_scLiOuter :
    HtmlStructureParser.parseNode "E1" scLiOuter [] =
      [⟨"1", "E1", ["Secretaria"], "Artigo A", some "X1", none⟩] := by
  rw [HtmlStructureParser.parseNode.eq_def]
  show ((cssList scInnerUl selLi).attach.map (fun x =>
    HtmlStructureParser.parseNode "E1" x.1 ([] ++ [textStrip scSpan]))).flatten = _
  rw [List.attach_map_val (cssList scInnerUl selLi)
    (fun y => HtmlStructureParser.parseNode "E1" y ([] ++ [textStrip scSpan]))]
  rw [show cssList scInnerUl selLi = [scLiInner] from rfl]
  rw [List.map_cons, List.map_nil, parseNode_scLiInner]
  rfl

/-- Evaluation of the spec scenario: the descendant-based `li`
selection visits the nested leaf twice, once through the folder (path
`["Secretaria"]`) and once directly from the top-level loop (path
`[]`). -/
lemma parse_scenario_eval :
    HtmlStructureParser.parse scDoc "E1" =
      [⟨"1", "E1", ["Secretaria"], "Artigo A", some "X1", none⟩,
       ⟨"1", "E1", [], "Artigo A", some "X1", none⟩] := by
  show ((cssList scTree selLi).map
    (fun li => HtmlStructureParser.parseNode "E1" li [])).flatten = _
  rw [show cssList scTree selLi = [scLiOuter, scLiInner] from rfl]
  rw [List.map_cons, List.map_cons, List.map_nil, parseNode_scLiOuter,
    parseNode_scLiInner]
  rfl

/-- C7 counterexample: the spec scenario, parsed with
`edition_id="E1"`, yields two `ArticleRecord`s, not exactly one — the
nested leaf is emitted a second time with an empty hierarchy path,
because selectolax `css` selection is descendant-based. -/
theorem HtmlStructureParser.parse_scenario_counterexample :
    (HtmlStructureParser.parse scDoc "E1").length = 2 ∧
    (HtmlStructureParser.parse scDoc "E1").length ≠ 1 := by
  rw [parse_scenario_eval]
  exact ⟨rfl, by decide⟩

/-- C7 (amended): `parse` stamps every emitted record with the edition
identifier passed into the call (never data embedded in the leaf), and
each record carries its own accumulated-path value; on the spec
scenario it yields exactly two records — the first with
`hierarchy_path=["Secretaria"]`, depth 1, `identifier="X1"`,
`edition_id="E1"` as the claim states, plus a duplicate of the same
leaf with empty path from the descendant-based top-level `li` loop
(the duplicate is removed later by `deduplicate_keep_deepest`). -/
theorem HtmlStructureParser.parse_spec_amended :
    (∀ (doc : DomNode) (eid : String) (a : ArticleMetadata),
      a ∈ HtmlStructureParser.parse doc eid → a.edition_id = eid) ∧
    HtmlStructureParser.parse scDoc "E1" =
      [⟨"1", "E1", ["Secretaria"], "Artigo A", some "X1", none⟩,
       ⟨"1", "E1", [], "Artigo A", some "X1", none⟩] := by
  constructor
  · intro doc eid a ha
    have hunf : HtmlStructureParser.parse doc eid =
        match cssFirst doc selTree with
        | none => []
        | some root_ul => ((cssList root_ul selLi).map
            (fun li => HtmlStructureParser.parseNode eid li [])).flatten := rfl
    rw [hunf] at ha
    cases hroot : cssFirst doc selTree with
    | none =>
      rw [hroot] at ha
      exact absurd ha (List.not_mem_nil a)
    | some root_ul =>
      rw [hroot] at ha
      rcases List.mem_flatten.mp ha with ⟨l, hl, hal⟩
      rcases List.mem_map.mp hl with ⟨li, _, hll⟩
      rw [← hll] at hal
      exact HtmlStructureParser.parseNode_editionId eid li.size li [] a
        (Nat.le_refl _) hal
  · exact parse_scenario_eval

/-- Witness for C7 (amended): the first scenario record is stamped
with the passed edition id `"E1"`. -/
theorem HtmlStructureParser.parse_spec_amended_witness :
    (⟨"1", "E1", ["Secretaria"], "Artigo A", some "X1", none⟩ :
      ArticleMetadata).edition_id = "E1" :=
  HtmlStructureParser.parse_spec_amended.1 scDoc "E1" _
    (by rw [parse_scenario_eval]; exact List.mem_cons_self _ _)

/-! ## Parquet storage writer (`storage/parquet_storage.py`)

The writer flattens editions into three row sets and writes them as
parquet files.  Environment-dependent pieces are passed in as
parameters: `md5hex` is the hex digest used by `_generate_edition_hash`
(its md5 internals are value-irrelevant to every claim), `decodeBytes`
is `bytes.decode("utf-8", errors="ignore")` (never raises), `now` is
`datetime.now().isoformat()` and `ts` the filename timestamp.  File
paths keep the source's directory layout except that the strptime-based
`year=/month=/day=` partition directory is abbreviated to the raw
publication-date string (the claims do not inspect partition names).
`wok path` tells whether the underlying `to_parquet` call at `path`
succeeds; a `False` models a raised write error. -/

/-- `json.dumps` of a list of strings (escaping omitted — no claim
feeds strings needing escapes). -/
def jsonDumpsStringList (xs : List String) : String :=
  "[" ++ String.intercalate ", " (xs.map (fun s => "\"" ++ s ++ "\"")) ++ "]"

/-- The `content_data` dict of `_articles_to_dataframe`
(`parquet_storage.py` lines 79–83); the source stores its
`json.dumps`, kept structured here. -/
structure ContentData where
  raw_content : String
  content_type : String
  content_size : Nat
deriving DecidableEq

/-- One row of the articles table (`parquet_storage.py` lines 86–98). -/
structure ArticleRow where
  article_id : String
  edition_id : String
  edition_hash : String
  publication_date : String
  title : String
  hierarchy_path : String
  identifier : String
  protocol : String
  depth : Nat
  content_data : ContentData
  processed_at : String
deriving DecidableEq

/-- One row of the editions table (`parquet_storage.py` lines 44–56). -/
structure EditionRow where
  edition_id : String
  publication_date : String
  edition_number : Int
  supplement : Bool
  edition_type_id : Int
  edition_type_name : String
  pdf_url : String
  total_articles : Nat
  processed_at : String
  edition_hash : String
deriving DecidableEq

/-- One row of the edition–article relationship table
(`parquet_storage.py` lines 179–186). -/
structure RelationshipRow where
  edition_id : String
  article_id : String
  edition_hash : String
  publication_date : String
  batch_id : String
  processed_at : String
deriving DecidableEq

/-- A row set written to one parquet file; `batch_id` is the column
appended by `save_editions` before writing. -/
inductive RowSet where
  | editions (rows : List EditionRow) (batch_id : String)
  | articles (rows : List ArticleRow) (batch_id : String)
  | relationships (rows : List RelationshipRow)
deriving DecidableEq

namespace ParquetStorage

/-- `_generate_edition_hash` (`parquet_storage.py` lines 102–107):
md5 hex of `f"{edition_id}_{publication_date}_{len(articles)}"`. -/
def _generate_edition_hash (md5hex : String → String) (edition : GazetteEdition) :
    String :=
  md5hex (edition.edition_id ++ "_" ++ pyStr edition.metadata.publication_date
    ++ "_" ++ toString edition.articles.length)

/-- The decoded content string of an article (`parquet_storage.py`
lines 70–77): UTF-8 decode with `errors="ignore"` for bytes (never
raises, so the `except` arm is dead), `str(...)` for text. -/
def decodedContent (decodeBytes : List Nat → String) (article : Article) : String :=
  match article.content.raw_content with
  | .bytes bs => decodeBytes bs
  | .text s => s

/-- `_articles_to_dataframe` (`parquet_storage.py` lines 60–100): one
row per article of every edition, with the full decoded content stored
inline in `content_data` — there is no inline threshold, no blob file,
no content hash and no content path in this writer. -/
def _articles_to_dataframe (md5hex : String → String)
    (decodeBytes : List Nat → String) (now : String)
    (editions : List GazetteEdition) : List ArticleRow :=
  (editions.map (fun edition =>
    let edition_hash := _generate_edition_hash md5hex edition
    edition.articles.map (fun article =>
      let raw_content := decodedContent decodeBytes article
      { article_id := article.article_id
        edition_id := article.metadata.edition_id
        edition_hash := edition_hash
        publication_date := pyStr edition.metadata.publication_date
        title := if article.metadata.title == "" then "" else article.metadata.title
        hierarchy_path :=
          if article.metadata.hierarchy_path.isEmpty then "[]"
          else jsonDumpsStringList article.metadata.hierarchy_path
        identifier := match article.metadata.identifier with
          | none => ""
          | some s => if s == "" then "" else s
        protocol := match article.metadata.protocol with
          | none => ""
          | some s => if s == "" then "" else s
        depth := article.depth
        content_data :=
          { raw_content := raw_content
            content_type := article.content.content_type.value
            content_size := raw_content.length }
        processed_at := now }))).flatten

/-- `_editions_to_dataframe` (`parquet_storage.py` lines 37–58). -/
def _editions_to_dataframe (md5hex : String → String) (now : String)
    (editions : List GazetteEdition) : List EditionRow :=
  editions.map (fun edition =>
    { edition_id := edition.edition_id
      publication_date := pyStr edition.metadata.publication_date
      edition_number := edition.metadata.edition_number
      supplement := edition.metadata.supplement
      edition_type_id := edition.metadata.edition_type_id
      edition_type_name := edition.metadata.edition_type_name
      pdf_url := edition.metadata.pdf_url
      total_articles := edition.articles.length
      processed_at := now
      edition_hash := _generate_edition_hash md5hex edition })

/-- The relationship rows of `_save_edition_article_relationship`
(`parquet_storage.py` lines 171–195). -/
def relationshipRows (md5hex : String → String) (batch_id now : String)
    (editions : List GazetteEdition) : List RelationshipRow :=
  (editions.map (fun edition =>
    let edition_hash := _generate_edition_hash md5hex edition
    edition.articles.map (fun article =>
      { edition_id := edition.edition_id
        article_id := article.article_id
        edition_hash := edition_hash
        publication_date := pyStr edition.metadata.publication_date
        batch_id := batch_id
        processed_at := now }))).flatten

/-- The parquet writes `save_editions` performs, in program order:
the editions file (when its frame is non-empty), one articles file per
publication date (pandas `groupby` iterates keys in sorted order), and
the relationships file (when any relationship row exists). -/
def plannedWrites (md5hex : String → String) (decodeBytes : List Nat → String)
    (now ts : String) (editions : List GazetteEdition) : List (String × RowSet) :=
  let batch_id := "batch_" ++ ts
  let editionRows := _editions_to_dataframe md5hex now editions
  let articleRows := _articles_to_dataframe md5hex decodeBytes now editions
  let relRows := relationshipRows md5hex batch_id now editions
  (if editionRows.isEmpty then []
   else [("gazettes/editions_" ++ ts ++ ".parquet", RowSet.editions editionRows batch_id)]) ++
  (if articleRows.isEmpty then []
   else ((articleRows.map (fun r => r.publication_date)).dedup.insertionSort
      (· ≤ ·)).map (fun d =>
        ("articles/" ++ d ++ "/articles_" ++ ts ++ ".parquet",
         RowSet.articles (articleRows.filter (fun r => r.publication_date == d))
           batch_id))) ++
  (if relRows.isEmpty then []
   else [("relationships/edition_articles_" ++ ts ++ ".parquet",
          RowSet.relationships relRows)])

/-- Sequential execution of the writes: the first failing `to_parquet`
raises, aborting the remainder; files already written stay on disk.
Returns the outcome and the list of files actually written. -/
def runWrites (wok : String → Bool) :
    List (String × RowSet) → Except Unit Unit × List (String × RowSet)
  | [] => (.ok (), [])
  | (p, rs) :: rest =>
    if wok p then
      let x := runWrites wok rest
      (x.1, (p, rs) :: x.2)
    else (.error (), [])

/-- `ParquetStorage.save_editions` (`parquet_storage.py` lines
125–169): empty input returns immediately; otherwise the three row
sets are written in order inside one `try`, whose `except` logs and
re-raises — every write error propagates to the caller. -/
def save_editions (md5hex : String → String) (decodeBytes : List Nat → String)
    (now ts : String) (wok : String → Bool) (editions : List GazetteEdition) :
    Except Unit Unit × List (String × RowSet) :=
  if editions.isEmpty then (.ok (), [])
  else runWrites wok (plannedWrites md5hex decodeBytes now ts editions)

lemma runWrites_spec (wok : String → Bool) :
    ∀ ws : List (String × RowSet),
      runWrites wok ws =
        (if ws.all (fun p => wok p.1) then .ok () else .error (),
         ws.takeWhile (fun p => wok p.1)) := by
  intro ws
  induction ws with
  | nil => rfl
  | cons p rest ih =>
    obtain ⟨pa, rs⟩ := p
    by_cases hw : wok pa
    · rw [runWrites]
      simp only [hw, if_true, ih]
      rw [List.all_cons, List.takeWhile_cons]
      rw [hw]
      simp only [Bool.true_and]
      simp
    · rw [runWrites]
      simp only [hw, if_false]
      rw [List.all_cons, List.takeWhile_cons]
      simp [hw]

end ParquetStorage

/-- A 3000-character payload, above the spec's claimed 2000-unit
inline threshold. -/
def c6big : String := ⟨List.replicate 3000 'a'⟩

/-- An edition holding one article whose content is `c6big`. -/
def c6edBig : GazetteEdition :=
  ⟨⟨"9", .str "2024-01-03", 1, false, 0, "", ""⟩,
   [⟨⟨"a1", "9", ["Sec"], "t", some "I", none⟩, ⟨.text c6big, .html⟩⟩]⟩

/-- C6 counterexample: a 3000-character content payload — above the
claimed 2000-unit threshold — is stored in full as the article row's
inline `content_data.raw_content`; no blob file is written (the writer
performs no write keyed by a content hash), no sha-256 hash or blob
path is recorded (the row has no such fields), and the inline text is
not null.  The claim's externalization behaviour does not exist in
this writer. -/
theorem ParquetStorage.blob_externalization_counterexample :
    2000 < c6big.length ∧
    (ParquetStorage._articles_to_dataframe (fun _ => "H") (fun _ => "") "N"
      [c6edBig]).map (fun r => r.content_data.raw_content) = [c6big] ∧
    (ParquetStorage._articles_to_dataframe (fun _ => "H") (fun _ => "") "N"
      [c6edBig]).map (fun r => r.content_data.content_size) = [c6big.length] := by
  refine ⟨?_, rfl, rfl⟩
  rw [show c6big.length = (List.replicate 3000 'a').length from rfl,
    List.length_replicate]
  omega

/-- C6 (amended): the writer stores every article's content inline —
one row per article of every edition, each row's `content_data`
holding the full decoded content, its content kind and its character
count, with no inline threshold, no blob file, no content hash and no
content path; the rows are a pure function of the input, so identical
content yields identical row content. -/
theorem ParquetStorage.articles_always_inline :
    ∀ (md5hex : String → String) (decodeBytes : List Nat → String) (now : String)
      (editions : List GazetteEdition),
      (ParquetStorage._articles_to_dataframe md5hex decodeBytes now editions).length =
        (editions.map (fun e => e.articles.length)).sum ∧
      (∀ r ∈ ParquetStorage._articles_to_dataframe md5hex decodeBytes now editions,
        ∃ e ∈ editions, ∃ a ∈ e.articles,
          r.content_data =
            { raw_content := ParquetStorage.decodedContent decodeBytes a
              content_type := a.content.content_type.value
              content_size :=
                (ParquetStorage.decodedContent decodeBytes a).length }) := by
  intro md5hex decodeBytes now editions
  constructor
  · rw [ParquetStorage._articles_to_dataframe, List.length_flatten, List.map_map]
    congr 1
    refine List.map_congr_left ?_
    intro e _
    simp
  · intro r hr
    rw [ParquetStorage._articles_to_dataframe] at hr
    rcases List.mem_flatten.mp hr with ⟨l, hl, hrl⟩
    rcases List.mem_map.mp hl with ⟨e, he, hel⟩
    rw [← hel] at hrl
    rcases List.mem_map.mp hrl with ⟨a, ha, har⟩
    exact ⟨e, he, a, ha, by rw [← har]⟩

/-- Witness for C6 (amended): the single row of the 3000-character
edition stores the full payload inline. -/
theorem ParquetStorage.articles_always_inline_witness :
    ∃ e ∈ [c6edBig], ∃ a ∈ e.articles,
      (⟨c6big, "html", c6big.length⟩ : ContentData) =
        { raw_content := ParquetStorage.decodedContent (fun _ => "") a
          content_type := a.content.content_type.value
          content_size := (ParquetStorage.decodedContent (fun _ => "") a).length } :=
  (ParquetStorage.articles_always_inline (fun _ => "H") (fun _ => "") "N" [c6edBig]).2
    _ (by exact List.mem_cons_self _ _)

/-- The single edition of the C5 counterexample batch. -/
def c5ed : GazetteEdition :=
  ⟨⟨"7", .str "2024-01-03", 1, false, 0, "", ""⟩,
   [⟨⟨"a1", "7", ["S"], "t", some "I", none⟩, ⟨.text "x", .html⟩⟩]⟩

/-- A backend whose `to_parquet` raises exactly on the articles file. -/
def c5wok : String → Bool := fun p => !(p == "articles/2024-01-03/articles_T.parquet")

/-- C5 counterexample: when the articles write fails, `save_editions`
propagates the error (first conjunct, as the claim says) — but the
editions file written just before the failure remains on disk: the
partial batch *is* committed (second conjunct), refuting "partial
batches are not committed". -/
theorem ParquetStorage.save_editions_counterexample :
    (ParquetStorage.save_editions (fun _ => "H") (fun _ => "") "N" "T" c5wok
      [c5ed]).1 = .error () ∧
    (ParquetStorage.save_editions (fun _ => "H") (fun _ => "") "N" "T" c5wok
      [c5ed]).2.length = 1 :=
  ⟨rfl, rfl⟩

/-- C5 (amended): a write failure on any of the three row sets makes
`save_editions` propagate the error to its caller rather than swallow
it (the `except` arm re-raises); the writes are not transactional, so
the files written before the failing one remain — `save_editions` is
exactly: run the planned writes in order, stop at the first failure,
keep the prefix already written, and report success only if every
write succeeded. -/
theorem ParquetStorage.save_editions_spec :
    ∀ (md5hex : String → String) (decodeBytes : List Nat → String) (now ts : String)
      (wok : String → Bool) (editions : List GazetteEdition),
      ParquetStorage.save_editions md5hex decodeBytes now ts wok editions =
        (if editions.isEmpty then ((.ok () : Except Unit Unit), [])
         else
          (if (ParquetStorage.plannedWrites md5hex decodeBytes now ts editions).all
              (fun p => wok p.1) then .ok () else .error (),
           (ParquetStorage.plannedWrites md5hex decodeBytes now ts
             editions).takeWhile (fun p => wok p.1))) ∧
      (editions.isEmpty = false →
        ∀ w ∈ ParquetStorage.plannedWrites md5hex decodeBytes now ts editions,
          wok w.1 = false →
          (ParquetStorage.save_editions md5hex decodeBytes now ts wok
            editions).1 = .error ()) := by
  intro md5hex decodeBytes now ts wok editions
  have heq : ParquetStorage.save_editions md5hex decodeBytes now ts wok editions =
      (if editions.isEmpty then ((.ok () : Except Unit Unit), [])
       else
        (if (ParquetStorage.plannedWrites md5hex decodeBytes now ts editions).all
            (fun p => wok p.1) then .ok () else .error (),
         (ParquetStorage.plannedWrites md5hex decodeBytes now ts
           editions).takeWhile (fun p => wok p.1))) := by
    rw [ParquetStorage.save_editions]
    by_cases he : editions.isEmpty
    · rw [if_pos he, if_pos he]
    · rw [if_neg he, if_neg he, ParquetStorage.runWrites_spec]
  refine ⟨heq, ?_⟩
  intro he w hw hfail
  rw [heq, if_neg (by rw [he]; exact Bool.false_ne_true)]
  have hall : (ParquetStorage.plannedWrites md5hex decodeBytes now ts editions).all
      (fun p => wok p.1) = false := by
    rw [List.all_eq_false]
    exact ⟨w, hw, by rw [hfail]; exact Bool.false_ne_true⟩
  rw [hall]
  rfl

/-- Witness for C5 (amended): at the counterexample batch, the
equation instantiates and the failing articles write forces the error
outcome. -/
theorem ParquetStorage.save_editions_spec_witness :
    ParquetStorage.save_editions (fun _ => "H") (fun _ => "") "N" "T" c5wok [c5ed] =
      (if ([c5ed] : List GazetteEdition).isEmpty then ((.ok () : Except Unit Unit), [])
       else
        (if (ParquetStorage.plannedWrites (fun _ => "H") (fun _ => "") "N" "T"
            [c5ed]).all (fun p => c5wok p.1) then .ok () else .error (),
         (ParquetStorage.plannedWrites (fun _ => "H") (fun _ => "") "N" "T"
           [c5ed]).takeWhile (fun p => c5wok p.1))) :=
  (ParquetStorage.save_editions_spec (fun _ => "H") (fun _ => "") "N" "T" c5wok
    [c5ed]).1

